import Mathlib

/-!
# Verification of the M/M/2 carwash discrete-event simulation (src/main.py)

The Python program runs a simpy discrete-event simulation of a carwash with
two machines (an M/M/2 queue), Poisson arrivals, exponential service times,
a periodic queue-length sampler, and a staggered repair person.

This file gives a shallow embedding of the program as an executable state
machine over exact rational time:

* The discrete-event engine (event queue ordered by `(time, sequence)`,
  fixed-capacity FIFO resource pool) is modelled from the spec: the engine
  itself lives in the external `simpy` library, not in this repository; its
  operations `schedule` / `step` / `run_until` / `request` / `release` are
  transcribed from the spec's component design (sections 4.1 and 4.2).
* The domain processes (`setup`, `car`, `track_queue_length`,
  `staggered_repair_person`) and the metrics (`calculate_metrics`) are
  translated directly from `src/main.py`.

Random variates are inputs: a `Streams` record supplies the sequence of
exponential inter-arrival draws, exponential service draws, and integer
repair-interval draws, mirroring the external sampler interface.  A negative
delay handed to the scheduler sets an error flag and freezes the run,
mirroring the spec's `InvalidDelay`.
-/

namespace Carwash

/-- `RANDOM_SEED = 42` from src/main.py (the seed itself only fixes the
variate streams; the model takes the streams as input). -/
def RANDOM_SEED : ℕ := 42

/-- `SIM_TIME = 500` from src/main.py. -/
def SIM_TIME : ℚ := 500

/-- `LAMBDA = 1 / 4` from src/main.py (arrival rate). -/
def LAMBDA : ℚ := 1 / 4

/-- `MU = 1 / 5` from src/main.py (service rate). -/
def MU : ℚ := 1 / 5

/-- `NUM_MACHINES = 2` from src/main.py. -/
def NUM_MACHINES : ℕ := 2

/-- `REPAIR_DURATION = 30` from src/main.py. -/
def REPAIR_DURATION : ℕ := 30

/-- `REPAIR_INTERVAL_MIN = 40` from src/main.py. -/
def REPAIR_INTERVAL_MIN : ℤ := 40

/-- `REPAIR_INTERVAL_MAX = 60` from src/main.py. -/
def REPAIR_INTERVAL_MAX : ℤ := 60

/-- `REPAIR_DURATION // 2` (Python floor division), the hold time for each
machine in one repair cycle. -/
def halfRepair : ℚ := ((REPAIR_DURATION / 2 : ℕ) : ℚ)

/-- Program counter of one logical process.  Process 0 is the arrival
generator `setup`, process 1 the sampler `track_queue_length`, process 2 the
`staggered_repair_person`; processes 3, 4, ... are the spawned cars. -/
inductive ProcState where
  /-- `setup` started, before its first `timeout`. -/
  | setupInit : ProcState
  /-- `setup` sleeping on `timeout(interarrival_time)`; on resume it spawns
  a car and draws the next gap. -/
  | setupS : ProcState
  /-- `track_queue_length` sleeping on `timeout(1)`; on resume it records the
  wait-queue length and the current time. -/
  | samplerS : ProcState
  /-- repair person started, before drawing its first interval. -/
  | repairInit : ProcState
  /-- repair person sleeping on `timeout(repair_interval)`. -/
  | repairSleep : ProcState
  /-- repair person's first request `req1` waiting in the pool's queue. -/
  | repairQ1 : ProcState
  /-- `req1` granted (slot held), resumption pending. -/
  | repairG1 : ProcState
  /-- first machine held offline, sleeping on `timeout(REPAIR_DURATION // 2)`. -/
  | repairHold1 : ProcState
  /-- repair person's second request `req2` waiting in the pool's queue. -/
  | repairQ2 : ProcState
  /-- `req2` granted (slot held), resumption pending. -/
  | repairG2 : ProcState
  /-- second machine held offline, sleeping on `timeout(REPAIR_DURATION // 2)`. -/
  | repairHold2 : ProcState
  /-- a car spawned at `arrival`, its start event pending. -/
  | carInit (arrival : ℚ) : ProcState
  /-- a car whose `machine.request()` is waiting in the pool's FIFO queue. -/
  | carQueued (arrival : ℚ) : ProcState
  /-- a car whose request has been granted a slot; resumption pending. -/
  | carGranted (arrival : ℚ) : ProcState
  /-- a car being washed: wash began at `start`, drawn duration `service`. -/
  | carWashing (start service : ℚ) : ProcState
  /-- a car that released its slot and finished. -/
  | carDone : ProcState
deriving DecidableEq, Repr

open ProcState

/-- Does this process state own one slot of the machine pool?  `in_use` of
the pool is the number of such processes. -/
def holdsSlot : ProcState → Bool
  | repairG1 | repairHold1 | repairG2 | repairHold2 => true
  | carGranted _ | carWashing _ _ => true
  | _ => false

/-- A car currently being washed. -/
def isWashing : ProcState → Bool
  | carWashing _ _ => true
  | _ => false

/-- A spawned car that has not completed yet. -/
def isAliveCar : ProcState → Bool
  | carInit _ | carQueued _ | carGranted _ | carWashing _ _ => true
  | _ => false

/-- The repair person holding a machine offline. -/
def isRepairHold : ProcState → Bool
  | repairG1 | repairHold1 | repairG2 | repairHold2 => true
  | _ => false

/-- States that have a pending event in the event queue (everything except
queued requests and finished cars). -/
def isActive : ProcState → Bool
  | carQueued _ | carDone | repairQ1 | repairQ2 => false
  | _ => true

/-- States of processes sitting in the pool's FIFO wait queue. -/
def isQueuedSt : ProcState → Bool
  | carQueued _ | repairQ1 | repairQ2 => true
  | _ => false

/-- States of the arrival generator. -/
def isSetupSt : ProcState → Bool
  | setupInit | setupS => true
  | _ => false

/-- States of the repair person. -/
def isRepairSt : ProcState → Bool
  | repairInit | repairSleep | repairQ1 | repairG1 | repairHold1
  | repairQ2 | repairG2 | repairHold2 => true
  | _ => false

/-- States of a car process. -/
def isCarSt : ProcState → Bool
  | carInit _ | carQueued _ | carGranted _ | carWashing _ _ | carDone => true
  | _ => false

/-- Position of the repair person inside one repair cycle:
0 before the first machine is offlined, 1 while the first is offline,
2 between restoring the first and offlining the second, 3 while the second
is offline. -/
def repairPhase : ProcState → ℕ
  | repairG1 | repairHold1 => 1
  | repairQ2 => 2
  | repairG2 | repairHold2 => 3
  | _ => 0

/-- One pending event of the event queue: fires at `time`, with insertion
sequence number `sq` as deterministic tiebreaker, resuming process `pid`. -/
structure Evt where
  time : ℚ
  sq : ℕ
  pid : ℕ
deriving DecidableEq, Repr

/-- The external random-variate sampler: `inter n` is the n-th
`random.expovariate(LAMBDA)` inter-arrival draw, `svc n` the n-th
`random.expovariate(MU)` service draw, `rep n` the n-th
`random.randint(REPAIR_INTERVAL_MIN, REPAIR_INTERVAL_MAX)` draw. -/
structure Streams where
  inter : ℕ → ℚ
  svc : ℕ → ℚ
  rep : ℕ → ℤ

/-- The whole simulation state: clock, event queue, process table, the
machine pool's FIFO wait queue, the tracking variables of src/main.py
(`wait_times`, `queue_lengths`, `queue_time`, `processed_cars`,
`busy_time`), draw counters, and two instrumentation logs (`grantsLog`
records grant time, arrival time and the recorded wait of each grant;
`completions` records the recorded busy-time delta and the drawn service
time of each finished wash; `repairLog` records the repair person's
offline/restore steps as codes 0,1,2,3, newest first). -/
structure SimState where
  now : ℚ
  seq : ℕ
  error : Bool
  events : List Evt
  procs : List ProcState
  queue : List ℕ
  carCount : ℕ
  interIdx : ℕ
  svcIdx : ℕ
  repIdx : ℕ
  wait_times : List ℚ
  queue_lengths : List ℕ
  queue_time : List ℚ
  processed_cars : ℕ
  busy_time : ℚ
  grantsLog : List (ℚ × ℚ × ℚ)
  completions : List (ℚ × ℚ)
  repairLog : List ℕ
deriving Repr

/-- Number of granted slots of the machine pool (`in_use`): cars holding a
machine plus the repair person holding one offline. -/
def inUse (s : SimState) : ℕ := s.procs.countP holdsSlot

/-- Insert an event into the time-ordered queue, keeping `(time, sq)`
lexicographic order; among equal times the smaller sequence number fires
first (the spec's FIFO tiebreak). -/
def insertEvt (e : Evt) : List Evt → List Evt
  | [] => [e]
  | x :: xs =>
    if e.time < x.time ∨ (e.time = x.time ∧ e.sq ≤ x.sq) then e :: x :: xs
    else x :: insertEvt e xs

/-- `schedule(delay, continuation)` of the spec: a negative delay is the
`InvalidDelay` error (the run freezes with `error := true`); otherwise an
event at `now + delay` is inserted with a fresh sequence number. -/
def sched (s : SimState) (d : ℚ) (p : ℕ) : SimState :=
  if d < 0 then { s with error := true }
  else { s with events := insertEvt ⟨s.now + d, s.seq, p⟩ s.events, seq := s.seq + 1 }

/-- Replace the program counter of process `p`. -/
def setP (s : SimState) (p : ℕ) (st : ProcState) : SimState :=
  { s with procs := s.procs.set p st }

/-- `release` of the resource pool: the releaser has already given up its
slot (its state was set to a non-holding one); if the FIFO wait queue is
non-empty its head is granted the freed slot and its resumption is
scheduled at the current time. -/
def releaseGrant (s : SimState) : SimState :=
  match s.queue with
  | [] => s
  | q :: rest =>
    match s.procs[q]? with
    | some (carQueued a) => sched (setP { s with queue := rest } q (carGranted a)) 0 q
    | some repairQ1 =>
        sched { setP { s with queue := rest } q repairG1 with repairLog := 0 :: s.repairLog } 0 q
    | some repairQ2 =>
        sched { setP { s with queue := rest } q repairG2 with repairLog := 2 :: s.repairLog } 0 q
    | _ => { s with queue := rest }

/-- A car's request has just been granted: record
`wait_time = now - arrival_time` into `wait_times`, draw the exponential
service time, and sleep on `timeout(service_time)` (the body of
`CarwashMM2.wash` inlined at its only call site). -/
def startWash (st : Streams) (s : SimState) (p : ℕ) (a : ℚ) : SimState :=
  let w := s.now - a
  let svc := st.svc s.svcIdx
  if svc < 0 then { s with error := true }
  else
    let s1 := { s with
      wait_times := s.wait_times ++ [w],
      grantsLog := (s.now, a, w) :: s.grantsLog,
      svcIdx := s.svcIdx + 1 }
    sched (setP s1 p (carWashing s.now svc)) svc p

/-- Resume process `p` (whose event has just fired) and run it to its next
suspension point.  Each branch transcribes one yield-to-yield segment of
the corresponding Python process body. -/
def runProc (st : Streams) (s : SimState) (p : ℕ) : SimState :=
  match s.procs[p]? with
  | none => s
  | some ps =>
    match ps with
    | setupInit =>
        let g := st.inter s.interIdx
        if g < 0 then { s with error := true }
        else sched (setP { s with interIdx := s.interIdx + 1 } p setupS) g p
    | setupS =>
        let g := st.inter s.interIdx
        if g < 0 then { s with error := true }
        else
          let newPid := s.procs.length
          let s1 := { s with
            procs := s.procs ++ [carInit s.now],
            carCount := s.carCount + 1,
            interIdx := s.interIdx + 1 }
          sched (sched s1 0 newPid) g p
    | samplerS =>
        let s1 := { s with
          queue_lengths := s.queue_lengths ++ [s.queue.length],
          queue_time := s.queue_time ++ [s.now] }
        sched s1 1 p
    | repairInit =>
        let r : ℚ := (st.rep s.repIdx : ℤ)
        if r < 0 then { s with error := true }
        else sched (setP { s with repIdx := s.repIdx + 1 } p repairSleep) r p
    | repairSleep =>
        if inUse s < NUM_MACHINES then
          sched { setP s p repairHold1 with repairLog := 0 :: s.repairLog } halfRepair p
        else { setP s p repairQ1 with queue := s.queue ++ [p] }
    | repairQ1 => s
    | repairG1 => sched (setP s p repairHold1) halfRepair p
    | repairHold1 =>
        let s1 := releaseGrant { setP s p repairQ2 with repairLog := 1 :: s.repairLog }
        if inUse s1 < NUM_MACHINES then
          sched { setP s1 p repairHold2 with repairLog := 2 :: s1.repairLog } halfRepair p
        else { s1 with queue := s1.queue ++ [p] }
    | repairQ2 => s
    | repairG2 => sched (setP s p repairHold2) halfRepair p
    | repairHold2 =>
        let s1 := releaseGrant { setP s p repairSleep with repairLog := 3 :: s.repairLog }
        let r : ℚ := (st.rep s1.repIdx : ℤ)
        if r < 0 then { s1 with error := true }
        else sched { s1 with repIdx := s1.repIdx + 1 } r p
    | carInit a =>
        if inUse s < NUM_MACHINES then startWash st s p a
        else { setP s p (carQueued a) with queue := s.queue ++ [p] }
    | carQueued _ => s
    | carGranted a => startWash st s p a
    | carWashing start svc =>
        let delta := s.now - start
        let s1 := { setP s p carDone with
          busy_time := s.busy_time + delta,
          completions := (delta, svc) :: s.completions,
          processed_cars := s.processed_cars + 1 }
        releaseGrant s1
    | carDone => s

/-- One `step()` of the run loop `run_until(SIM_TIME)`: if the run has not
errored and the earliest pending event fires at or before the horizon, pop
it, advance the clock to its time, and resume its process; otherwise the
state is left unchanged (normal completion). -/
def step (st : Streams) (s : SimState) : SimState :=
  if s.error then s
  else
    match s.events with
    | [] => s
    | e :: rest =>
      if e.time ≤ SIM_TIME then runProc st { s with now := e.time, events := rest } e.pid
      else s

/-- Run `n` steps of the event loop. -/
def runFuel (st : Streams) : ℕ → SimState → SimState
  | 0, s => s
  | n + 1, s => runFuel st n (step st s)

/-- The initial state: clock at 0, the three root processes (`setup`,
`track_queue_length`, `staggered_repair_person`) registered with start
events at time 0 in registration order, all tracking variables empty. -/
def init : SimState where
  now := 0
  seq := 3
  error := false
  events := [⟨0, 0, 0⟩, ⟨0, 1, 1⟩, ⟨0, 2, 2⟩]
  procs := [setupInit, samplerS, repairInit]
  queue := []
  carCount := 0
  interIdx := 0
  svcIdx := 0
  repIdx := 0
  wait_times := []
  queue_lengths := []
  queue_time := []
  processed_cars := 0
  busy_time := 0
  grantsLog := []
  completions := []
  repairLog := []

/-- The state of the simulation after `n` events have been dispatched. -/
def run (st : Streams) (n : ℕ) : SimState := runFuel st n init

/-- `sum(l)/len(l) if l else 0` for a rational-valued sample list. -/
def avgOfQ (l : List ℚ) : ℚ := if l = [] then 0 else l.sum / l.length

/-- `sum(l)/len(l) if l else 0` for the integer queue-length samples. -/
def avgOfN (l : List ℕ) : ℚ := if l = [] then 0 else (l.sum : ℚ) / l.length

/-- `avg_wait_time` of `calculate_metrics`. -/
def avg_wait_time (s : SimState) : ℚ := avgOfQ s.wait_times

/-- `avg_queue_length` of `calculate_metrics`. -/
def avg_queue_length (s : SimState) : ℚ := avgOfN s.queue_lengths

/-- `utilization = busy_time / (SIM_TIME * NUM_MACHINES)` of
`calculate_metrics`. -/
def utilization (s : SimState) : ℚ := s.busy_time / (SIM_TIME * (NUM_MACHINES : ℚ))

/-- `throughput = processed_cars / SIM_TIME` of `calculate_metrics`. -/
def throughput (s : SimState) : ℚ := (s.processed_cars : ℚ) / SIM_TIME

/-- Number of cars currently being washed. -/
def washCount (s : SimState) : ℕ := s.procs.countP isWashing

/-- Number of spawned, unfinished cars. -/
def aliveCars (s : SimState) : ℕ := s.procs.countP isAliveCar

/-- Number of machines the repair person currently holds offline. -/
def repairHeld (s : SimState) : ℕ := s.procs.countP isRepairHold

/-- Time already spent on the wash in progress of one process (0 for
processes not washing). -/
def washElapsed (t : ℚ) : ProcState → ℚ
  | carWashing start _ => t - start
  | _ => 0

/-- Total elapsed time of all washes in progress. -/
def washSum (s : SimState) : ℚ := (s.procs.map (washElapsed s.now)).sum

/-- The sample sequences and totals the run produces (everything
`calculate_metrics` and `plot_graphs` consume). -/
def outputs (s : SimState) : List ℚ × List ℕ × List ℚ × ℕ × ℚ :=
  (s.wait_times, s.queue_lengths, s.queue_time, s.processed_cars, s.busy_time)

/-- The legal range of the sampler draws: exponential variates are
non-negative and `random.randint(40, 60)` lies in `[40, 60]`. -/
def Nonneg (st : Streams) : Prop :=
  ∀ n, 0 ≤ st.inter n ∧ 0 ≤ st.svc n ∧
    REPAIR_INTERVAL_MIN ≤ st.rep n ∧ st.rep n ≤ REPAIR_INTERVAL_MAX

/-- The strict alternation 0,1,2,3,0,1,... (newest first) that a correct
staggered-repair log must follow: `cyc n` is the unique well-formed log of
length `n`. -/
def cyc : ℕ → List ℕ
  | 0 => []
  | n + 1 => (n % 4) :: cyc n

/-- A stream assignment with unit exponential draws and the minimal repair
interval; used to instantiate universally quantified theorems on a concrete
run. -/
def exS : Streams := ⟨fun _ => 1, fun _ => 1, fun _ => 40⟩

/-- Streams realising a saturated pool at the repair person's arrival:
cars arrive at times 1, 2, 3 (then no more before the horizon), each wash
takes 100 minutes, and the repair person arrives at time 40. -/
def c2S : Streams := ⟨fun n => if n < 3 then 1 else 1000, fun _ => 100, fun _ => 40⟩

/-! ## Generic list lemmas -/

theorem countP_set_eq {α : Type} (p : α → Bool) (l : List α) (i : ℕ) (a b : α)
    (h : l[i]? = some a) :
    (l.set i b).countP p + (if p a then 1 else 0) = l.countP p + (if p b then 1 else 0) := by
  obtain ⟨hlt, hget⟩ := List.getElem?_eq_some_iff.mp h
  have hmem : a ∈ l := hget ▸ l.getElem_mem hlt
  have hle : (if p a = true then 1 else 0) ≤ l.countP p := by
    by_cases hp : p a = true
    · simpa [hp] using List.countP_pos_iff.mpr ⟨a, hmem, hp⟩
    · simp [hp]
  rw [List.countP_set p l i b hlt, hget]
  generalize l.countP p = c at hle ⊢
  by_cases hp : p a = true <;> by_cases hq : p b = true <;>
    simp only [hp, hq, if_true, if_false] at hle ⊢ <;> omega

theorem sum_map_set {α : Type} (f : α → ℚ) (l : List α) (i : ℕ) (a b : α)
    (h : l[i]? = some a) :
    ((l.set i b).map f).sum = (l.map f).sum + f b - f a := by
  induction l generalizing i with
  | nil => simp at h
  | cons x xs ih =>
    cases i with
    | zero =>
      simp only [List.getElem?_cons_zero, Option.some_inj] at h
      subst h
      simp [List.set]
      ring
    | succ n =>
      simp only [List.getElem?_cons_succ] at h
      simp only [List.set, List.map_cons, List.sum_cons, ih n h]
      ring

theorem countP_set_same {α : Type} (p : α → Bool) (l : List α) (i : ℕ) (a b : α)
    (h : l[i]? = some a) (hab : p a = p b) :
    (l.set i b).countP p = l.countP p := by
  have h2 := countP_set_eq p l i a b h
  rw [hab] at h2
  omega

theorem countP_set_drop {α : Type} (p : α → Bool) (l : List α) (i : ℕ) (a b : α)
    (h : l[i]? = some a) (ha : p a = true) (hb : p b = false) :
    (l.set i b).countP p + 1 = l.countP p := by
  have h2 := countP_set_eq p l i a b h
  rw [ha, hb] at h2
  simp at h2
  omega

theorem countP_set_add {α : Type} (p : α → Bool) (l : List α) (i : ℕ) (a b : α)
    (h : l[i]? = some a) (ha : p a = false) (hb : p b = true) :
    (l.set i b).countP p = l.countP p + 1 := by
  have h2 := countP_set_eq p l i a b h
  rw [ha, hb] at h2
  simp at h2
  omega

theorem countP_set_le {α : Type} (p : α → Bool) (l : List α) (i : ℕ) (b : α) :
    (l.set i b).countP p ≤ l.countP p + 1 := by
  rcases h : l[i]? with _ | a
  · rw [List.set_eq_of_length_le (List.getElem?_eq_none_iff.mp h)]
    omega
  · have h2 := countP_set_eq p l i a b h
    by_cases ha : p a = true <;> by_cases hb : p b = true <;>
      simp [ha, hb] at h2 <;> omega

/-! ## C1: the machine pool never exceeds its capacity -/

theorem inUse_sched (s : SimState) (d : ℚ) (p : ℕ) : inUse (sched s d p) = inUse s := by
  unfold sched
  split <;> rfl

theorem inUse_releaseGrant (s : SimState) : inUse (releaseGrant s) ≤ inUse s + 1 := by
  unfold releaseGrant
  split
  · omega
  split
  · rw [inUse_sched]
    exact countP_set_le holdsSlot s.procs _ _
  · rw [inUse_sched]
    exact countP_set_le holdsSlot s.procs _ _
  · rw [inUse_sched]
    exact countP_set_le holdsSlot s.procs _ _
  · exact Nat.le_succ _

theorem inUse_runProc (st : Streams) (s : SimState) (p : ℕ)
    (h : inUse s ≤ NUM_MACHINES) : inUse (runProc st s p) ≤ NUM_MACHINES := by
  have hcnt : List.countP holdsSlot s.procs ≤ NUM_MACHINES := h
  rcases hps : s.procs[p]? with _ | ps
  · simpa [runProc, hps] using h
  cases ps
  case setupInit =>
    simp only [runProc, hps]
    split
    · exact h
    · rw [inUse_sched]
      show List.countP holdsSlot (s.procs.set p setupS) ≤ NUM_MACHINES
      rw [countP_set_same holdsSlot s.procs p setupInit setupS hps rfl]
      exact hcnt
  case setupS =>
    simp only [runProc, hps]
    split
    · exact h
    · rw [inUse_sched, inUse_sched]
      show List.countP holdsSlot (s.procs ++ [carInit s.now]) ≤ NUM_MACHINES
      rw [List.countP_append]
      simpa [holdsSlot] using hcnt
  case samplerS =>
    simp only [runProc, hps]
    rw [inUse_sched]
    exact h
  case repairInit =>
    simp only [runProc, hps]
    split
    · exact h
    · rw [inUse_sched]
      show List.countP holdsSlot (s.procs.set p repairSleep) ≤ NUM_MACHINES
      rw [countP_set_same holdsSlot s.procs p repairInit repairSleep hps rfl]
      exact hcnt
  case repairSleep =>
    simp only [runProc, hps]
    split
    · rename_i hlt
      rw [inUse_sched]
      show List.countP holdsSlot (s.procs.set p repairHold1) ≤ NUM_MACHINES
      rw [countP_set_add holdsSlot s.procs p repairSleep repairHold1 hps rfl rfl]
      exact hlt
    · show List.countP holdsSlot (s.procs.set p repairQ1) ≤ NUM_MACHINES
      rw [countP_set_same holdsSlot s.procs p repairSleep repairQ1 hps rfl]
      exact hcnt
  case repairQ1 =>
    simpa [runProc, hps] using h
  case repairG1 =>
    simp only [runProc, hps]
    rw [inUse_sched]
    show List.countP holdsSlot (s.procs.set p repairHold1) ≤ NUM_MACHINES
    rw [countP_set_same holdsSlot s.procs p repairG1 repairHold1 hps rfl]
    exact hcnt
  case repairHold1 =>
    simp only [runProc, hps]
    have hdrop := countP_set_drop holdsSlot s.procs p repairHold1 repairQ2 hps rfl rfl
    have hb : inUse (releaseGrant { setP s p repairQ2 with repairLog := 1 :: s.repairLog })
        ≤ inUse s := by
      refine le_trans (inUse_releaseGrant _) ?_
      show List.countP holdsSlot (s.procs.set p repairQ2) + 1 ≤ List.countP holdsSlot s.procs
      omega
    split
    · rename_i hlt
      rw [inUse_sched]
      refine le_trans (countP_set_le holdsSlot _ p repairHold2) ?_
      exact hlt
    · exact le_trans hb h
  case repairQ2 =>
    simpa [runProc, hps] using h
  case repairG2 =>
    simp only [runProc, hps]
    rw [inUse_sched]
    show List.countP holdsSlot (s.procs.set p repairHold2) ≤ NUM_MACHINES
    rw [countP_set_same holdsSlot s.procs p repairG2 repairHold2 hps rfl]
    exact hcnt
  case repairHold2 =>
    simp only [runProc, hps]
    have hdrop := countP_set_drop holdsSlot s.procs p repairHold2 repairSleep hps rfl rfl
    have hb : inUse (releaseGrant { setP s p repairSleep with repairLog := 3 :: s.repairLog })
        ≤ inUse s := by
      refine le_trans (inUse_releaseGrant _) ?_
      show List.countP holdsSlot (s.procs.set p repairSleep) + 1 ≤ List.countP holdsSlot s.procs
      omega
    split
    · exact le_trans hb h
    · rw [inUse_sched]
      exact le_trans hb h
  case carInit a =>
    simp only [runProc, hps]
    split
    · rename_i hlt
      simp only [startWash]
      split
      · exact h
      · rw [inUse_sched]
        show List.countP holdsSlot (s.procs.set p (carWashing s.now (st.svc s.svcIdx)))
          ≤ NUM_MACHINES
        rw [countP_set_add holdsSlot s.procs p (carInit a)
          (carWashing s.now (st.svc s.svcIdx)) hps rfl rfl]
        exact hlt
    · show List.countP holdsSlot (s.procs.set p (carQueued a)) ≤ NUM_MACHINES
      rw [countP_set_same holdsSlot s.procs p (carInit a) (carQueued a) hps rfl]
      exact hcnt
  case carQueued a =>
    simpa [runProc, hps] using h
  case carGranted a =>
    simp only [runProc, hps]
    simp only [startWash]
    split
    · exact h
    · rw [inUse_sched]
      show List.countP holdsSlot (s.procs.set p (carWashing s.now (st.svc s.svcIdx)))
        ≤ NUM_MACHINES
      rw [countP_set_same holdsSlot s.procs p (carGranted a)
        (carWashing s.now (st.svc s.svcIdx)) hps rfl]
      exact hcnt
  case carWashing start svc =>
    simp only [runProc, hps]
    have hdrop := countP_set_drop holdsSlot s.procs p (carWashing start svc) carDone hps rfl rfl
    refine le_trans (inUse_releaseGrant _) ?_
    show List.countP holdsSlot (s.procs.set p carDone) + 1 ≤ NUM_MACHINES
    omega
  case carDone =>
    simpa [runProc, hps] using h

theorem inUse_step (st : Streams) (s : SimState)
    (h : inUse s ≤ NUM_MACHINES) : inUse (step st s) ≤ NUM_MACHINES := by
  unfold step
  split
  · exact h
  split
  · exact h
  split
  · exact inUse_runProc st _ _ h
  · exact h

theorem inUse_runFuel (st : Streams) (n : ℕ) (s : SimState)
    (h : inUse s ≤ NUM_MACHINES) : inUse (runFuel st n s) ≤ NUM_MACHINES := by
  induction n generalizing s with
  | zero => exact h
  | succ n ih => exact ih _ (inUse_step st s h)

/-- C1: at every instant of every run, the machine pool satisfies
`0 ≤ in_use ≤ capacity`: the number of granted slots (cars holding a
machine plus the repair person holding one offline) is never negative and
never exceeds `NUM_MACHINES`, and every event dispatch — hence every
request and release — preserves this. -/
theorem machine_pool_capacity_invariant (st : Streams) (n : ℕ) :
    0 ≤ inUse (run st n) ∧ inUse (run st n) ≤ NUM_MACHINES :=
  ⟨Nat.zero_le _, inUse_runFuel st n init (by decide)⟩

/-! ## C8: processed cars never exceed spawned cars -/

theorem sched_procs (s : SimState) (d : ℚ) (p : ℕ) : (sched s d p).procs = s.procs := by
  unfold sched
  split <;> rfl

/-- Granting the queue head turns a queued state into the matching granted
state, so any count of states that does not distinguish the two is
unchanged by `releaseGrant`. -/
theorem countP_releaseGrant_eq (s : SimState) (p : ProcState → Bool)
    (hcq : ∀ a, p (carQueued a) = p (carGranted a))
    (hr1 : p repairQ1 = p repairG1) (hr2 : p repairQ2 = p repairG2) :
    (releaseGrant s).procs.countP p = s.procs.countP p := by
  unfold releaseGrant
  split
  · rfl
  split
  · rename_i a heq
    rw [sched_procs]
    show (s.procs.set _ (carGranted a)).countP p = s.procs.countP p
    exact countP_set_same p s.procs _ (carQueued a) (carGranted a) heq (hcq a)
  · rename_i heq
    rw [sched_procs]
    show (s.procs.set _ repairG1).countP p = s.procs.countP p
    exact countP_set_same p s.procs _ repairQ1 repairG1 heq hr1
  · rename_i heq
    rw [sched_procs]
    show (s.procs.set _ repairG2).countP p = s.procs.countP p
    exact countP_set_same p s.procs _ repairQ2 repairG2 heq hr2
  · rfl

/-- Pointwise effect of `releaseGrant` on the process table: every entry is
unchanged, or was the granted queue head and went from its queued state to
the matching granted state. -/
theorem releaseGrant_get (s : SimState) (j : ℕ) :
    (releaseGrant s).procs[j]? = s.procs[j]? ∨
    (∃ a, s.procs[j]? = some (carQueued a) ∧
      (releaseGrant s).procs[j]? = some (carGranted a)) ∨
    (s.procs[j]? = some repairQ1 ∧ (releaseGrant s).procs[j]? = some repairG1) ∨
    (s.procs[j]? = some repairQ2 ∧ (releaseGrant s).procs[j]? = some repairG2) := by
  unfold releaseGrant
  split
  · left; rfl
  rename_i q rest hq
  split
  · rename_i a heq
    rw [show ∀ s' d p', (sched s' d p').procs = s'.procs from fun _ _ _ => sched_procs _ _ _]
    show (s.procs.set q (carGranted a))[j]? = _ ∨ _
    by_cases hj : q = j
    · subst hj
      right; left
      exact ⟨a, heq, List.getElem?_set_self (List.getElem?_eq_some_iff.mp heq).1⟩
    · left
      exact List.getElem?_set_ne hj
  · rename_i heq
    rw [show ∀ s' d p', (sched s' d p').procs = s'.procs from fun _ _ _ => sched_procs _ _ _]
    show (s.procs.set q repairG1)[j]? = _ ∨ _
    by_cases hj : q = j
    · subst hj
      right; right; left
      exact ⟨heq, List.getElem?_set_self (List.getElem?_eq_some_iff.mp heq).1⟩
    · left
      exact List.getElem?_set_ne hj
  · rename_i heq
    rw [show ∀ s' d p', (sched s' d p').procs = s'.procs from fun _ _ _ => sched_procs _ _ _]
    show (s.procs.set q repairG2)[j]? = _ ∨ _
    by_cases hj : q = j
    · subst hj
      right; right; right
      exact ⟨heq, List.getElem?_set_self (List.getElem?_eq_some_iff.mp heq).1⟩
    · left
      exact List.getElem?_set_ne hj
  · left; rfl

/-- The per-run accounting identity: every spawned car is either still
alive in the process table or has been counted in `processed_cars`. -/
def Acct (s : SimState) : Prop := s.carCount = s.processed_cars + aliveCars s

theorem acct_sched (s : SimState) (d : ℚ) (p : ℕ) (h : Acct s) : Acct (sched s d p) := by
  unfold sched
  split <;> exact h

theorem acct_releaseGrant (s : SimState) (h : Acct s) : Acct (releaseGrant s) := by
  have hc := countP_releaseGrant_eq s isAliveCar (fun a => rfl) rfl rfl
  have hcc : (releaseGrant s).carCount = s.carCount := by
    unfold releaseGrant
    split
    · rfl
    split <;> rfl
  have hpc : (releaseGrant s).processed_cars = s.processed_cars := by
    unfold releaseGrant
    split
    · rfl
    split <;> rfl
  unfold Acct aliveCars at h ⊢
  rw [hc, hcc, hpc]
  exact h

theorem acct_runProc (st : Streams) (s : SimState) (p : ℕ)
    (h : Acct s) : Acct (runProc st s p) := by
  rcases hps : s.procs[p]? with _ | ps
  · simpa [runProc, hps] using h
  have hacct : s.carCount = s.processed_cars + List.countP isAliveCar s.procs := h
  cases ps
  case setupInit =>
    simp only [runProc, hps]
    split
    · exact h
    · refine acct_sched _ _ _ ?_
      show s.carCount = s.processed_cars + (s.procs.set p setupS).countP isAliveCar
      rw [countP_set_same isAliveCar s.procs p setupInit setupS hps rfl]
      exact hacct
  case setupS =>
    simp only [runProc, hps]
    split
    · exact h
    · refine acct_sched _ _ _ (acct_sched _ _ _ ?_)
      show s.carCount + 1 =
        s.processed_cars + (s.procs ++ [carInit s.now]).countP isAliveCar
      rw [List.countP_append]
      simp [isAliveCar]
      omega
  case samplerS =>
    simp only [runProc, hps]
    exact acct_sched _ _ _ h
  case repairInit =>
    simp only [runProc, hps]
    split
    · exact h
    · refine acct_sched _ _ _ ?_
      show s.carCount = s.processed_cars + (s.procs.set p repairSleep).countP isAliveCar
      rw [countP_set_same isAliveCar s.procs p repairInit repairSleep hps rfl]
      exact hacct
  case repairSleep =>
    simp only [runProc, hps]
    split
    · refine acct_sched _ _ _ ?_
      show s.carCount = s.processed_cars + (s.procs.set p repairHold1).countP isAliveCar
      rw [countP_set_same isAliveCar s.procs p repairSleep repairHold1 hps rfl]
      exact hacct
    · show s.carCount = s.processed_cars + (s.procs.set p repairQ1).countP isAliveCar
      rw [countP_set_same isAliveCar s.procs p repairSleep repairQ1 hps rfl]
      exact hacct
  case repairQ1 =>
    simpa [runProc, hps] using h
  case repairG1 =>
    simp only [runProc, hps]
    refine acct_sched _ _ _ ?_
    show s.carCount = s.processed_cars + (s.procs.set p repairHold1).countP isAliveCar
    rw [countP_set_same isAliveCar s.procs p repairG1 repairHold1 hps rfl]
    exact hacct
  case repairHold1 =>
    simp only [runProc, hps]
    have hplen : p < s.procs.length := (List.getElem?_eq_some_iff.mp hps).1
    have hXp : ({ setP s p repairQ2 with
        repairLog := 1 :: s.repairLog } : SimState).procs[p]? = some repairQ2 := by
      show (s.procs.set p repairQ2)[p]? = some repairQ2
      exact List.getElem?_set_self (by simpa using hplen)
    have h1 : Acct (releaseGrant { setP s p repairQ2 with repairLog := 1 :: s.repairLog }) := by
      refine acct_releaseGrant _ ?_
      show s.carCount = s.processed_cars + (s.procs.set p repairQ2).countP isAliveCar
      rw [countP_set_same isAliveCar s.procs p repairHold1 repairQ2 hps rfl]
      exact hacct
    set S1 := releaseGrant { setP s p repairQ2 with repairLog := 1 :: s.repairLog } with hS1def
    have hS1p : S1.procs[p]? = some repairQ2 ∨ S1.procs[p]? = some repairG2 := by
      rcases releaseGrant_get { setP s p repairQ2 with repairLog := 1 :: s.repairLog } p with
        hg | ⟨a', ha', _⟩ | ⟨ha', _⟩ | ⟨_, hg⟩
      · left; rw [hS1def, hg]; exact hXp
      · rw [hXp] at ha'; exact absurd ha' (by simp)
      · rw [hXp] at ha'; exact absurd ha' (by simp)
      · right; rw [hS1def, hg]
    split
    · refine acct_sched _ _ _ ?_
      simp only [Acct, aliveCars, setP] at h1 ⊢
      rcases hS1p with hS1p | hS1p
      · rw [countP_set_same isAliveCar S1.procs p repairQ2 repairHold2 hS1p rfl]
        exact h1
      · rw [countP_set_same isAliveCar S1.procs p repairG2 repairHold2 hS1p rfl]
        exact h1
    · exact h1
  case repairQ2 =>
    simpa [runProc, hps] using h
  case repairG2 =>
    simp only [runProc, hps]
    refine acct_sched _ _ _ ?_
    show s.carCount = s.processed_cars + (s.procs.set p repairHold2).countP isAliveCar
    rw [countP_set_same isAliveCar s.procs p repairG2 repairHold2 hps rfl]
    exact hacct
  case repairHold2 =>
    simp only [runProc, hps]
    have h1 : Acct (releaseGrant { setP s p repairSleep with repairLog := 3 :: s.repairLog }) := by
      refine acct_releaseGrant _ ?_
      show s.carCount = s.processed_cars + (s.procs.set p repairSleep).countP isAliveCar
      rw [countP_set_same isAliveCar s.procs p repairHold2 repairSleep hps rfl]
      exact hacct
    split
    · exact h1
    · exact acct_sched _ _ _ h1
  case carInit a =>
    simp only [runProc, hps]
    split
    · simp only [startWash]
      split
      · exact h
      · refine acct_sched _ _ _ ?_
        show s.carCount = s.processed_cars +
          (s.procs.set p (carWashing s.now (st.svc s.svcIdx))).countP isAliveCar
        rw [countP_set_same isAliveCar s.procs p (carInit a)
          (carWashing s.now (st.svc s.svcIdx)) hps rfl]
        exact hacct
    · show s.carCount = s.processed_cars + (s.procs.set p (carQueued a)).countP isAliveCar
      rw [countP_set_same isAliveCar s.procs p (carInit a) (carQueued a) hps rfl]
      exact hacct
  case carQueued a =>
    simpa [runProc, hps] using h
  case carGranted a =>
    simp only [runProc, hps]
    simp only [startWash]
    split
    · exact h
    · refine acct_sched _ _ _ ?_
      show s.carCount = s.processed_cars +
        (s.procs.set p (carWashing s.now (st.svc s.svcIdx))).countP isAliveCar
      rw [countP_set_same isAliveCar s.procs p (carGranted a)
        (carWashing s.now (st.svc s.svcIdx)) hps rfl]
      exact hacct
  case carWashing start svc =>
    simp only [runProc, hps]
    refine acct_releaseGrant _ ?_
    show s.carCount = s.processed_cars + 1 + (s.procs.set p carDone).countP isAliveCar
    have hdrop := countP_set_drop isAliveCar s.procs p (carWashing start svc) carDone hps rfl rfl
    omega
  case carDone =>
    simpa [runProc, hps] using h

theorem acct_step (st : Streams) (s : SimState) (h : Acct s) : Acct (step st s) := by
  unfold step
  split
  · exact h
  split
  · exact h
  split
  · exact acct_runProc st _ _ h
  · exact h

theorem acct_runFuel (st : Streams) (n : ℕ) (s : SimState) (h : Acct s) :
    Acct (runFuel st n s) := by
  induction n generalizing s with
  | zero => exact h
  | succ n ih => exact ih _ (acct_step st s h)

/-- C8: at every instant of every run, `processed_cars` never exceeds
`car_count`, the number of cars spawned by the arrival generator — so the
reported throughput times the horizon never exceeds the number of cars
spawned. -/
theorem processed_le_spawned (st : Streams) (n : ℕ) :
    (run st n).processed_cars ≤ (run st n).carCount ∧
    throughput (run st n) * SIM_TIME ≤ ((run st n).carCount : ℚ) := by
  have h : Acct (run st n) := acct_runFuel st n init rfl
  have hle : (run st n).processed_cars ≤ (run st n).carCount := by
    unfold Acct at h
    omega
  refine ⟨hle, ?_⟩
  have : throughput (run st n) * SIM_TIME = ((run st n).processed_cars : ℚ) := by
    unfold throughput SIM_TIME
    field_simp
  rw [this]
  exact_mod_cast hle

/-! ## C3: the repair person offlines one machine at a time -/

/-- Structure of the process table: process 0 is the arrival generator,
process 1 the sampler, process 2 the repair person (whose phase inside a
repair cycle matches the length of the repair log), processes 3 and above
are cars; and the repair log follows the strict offline-1, restore-1,
offline-2, restore-2 alternation. -/
def ShapeInv (s : SimState) : Prop :=
  2 < s.procs.length ∧
  (∀ ps, s.procs[0]? = some ps → isSetupSt ps = true) ∧
  s.procs[1]? = some samplerS ∧
  (∀ ps, s.procs[2]? = some ps →
    isRepairSt ps = true ∧ repairPhase ps = s.repairLog.length % 4) ∧
  (∀ k ps, s.procs[k + 3]? = some ps → isCarSt ps = true) ∧
  s.repairLog = cyc s.repairLog.length

theorem repair_not_setup {ps : ProcState} (h : isRepairSt ps = true) :
    isSetupSt ps = false := by
  cases ps <;> first | rfl | exact absurd h (by simp [isRepairSt])

theorem repair_not_car {ps : ProcState} (h : isRepairSt ps = true) :
    isCarSt ps = false := by
  cases ps <;> first | rfl | exact absurd h (by simp [isRepairSt])

theorem setup_not_car {ps : ProcState} (h : isSetupSt ps = true) :
    isCarSt ps = false := by
  cases ps <;> first | rfl | exact absurd h (by simp [isSetupSt])

theorem shape_repair_pid {s : SimState} (h : ShapeInv s) {p : ℕ} {ps : ProcState}
    (hps : s.procs[p]? = some ps) (hr : isRepairSt ps = true) : p = 2 := by
  obtain ⟨hlen, h0, h1, h2, hcar, hlog⟩ := h
  match p with
  | 0 =>
    have hst := h0 ps hps
    rw [repair_not_setup hr] at hst
    cases hst
  | 1 =>
    rw [h1] at hps
    cases hps
    simp [isRepairSt] at hr
  | 2 => rfl
  | (k + 3) =>
    have hst := hcar k ps hps
    rw [repair_not_car hr] at hst
    cases hst

theorem shape_setup_pid {s : SimState} (h : ShapeInv s) {p : ℕ} {ps : ProcState}
    (hps : s.procs[p]? = some ps) (hr : isSetupSt ps = true) : p = 0 := by
  obtain ⟨hlen, h0, h1, h2, hcar, hlog⟩ := h
  match p with
  | 0 => rfl
  | 1 =>
    rw [h1] at hps
    cases hps
    simp [isSetupSt] at hr
  | 2 =>
    have hst := (h2 ps hps).1
    rw [repair_not_setup hst] at hr
    cases hr
  | (k + 3) =>
    have hst := hcar k ps hps
    rw [setup_not_car hr] at hst
    cases hst

theorem shape_car_pid {s : SimState} (h : ShapeInv s) {p : ℕ} {ps : ProcState}
    (hps : s.procs[p]? = some ps) (hr : isCarSt ps = true) : ∃ k, p = k + 3 := by
  obtain ⟨hlen, h0, h1, h2, hcar, hlog⟩ := h
  match p with
  | 0 =>
    have hst := h0 ps hps
    rw [setup_not_car hst] at hr
    cases hr
  | 1 =>
    rw [h1] at hps
    cases hps
    simp [isCarSt] at hr
  | 2 =>
    have hst := (h2 ps hps).1
    rw [repair_not_car hst] at hr
    cases hr
  | (k + 3) => exact ⟨k, rfl⟩

/-- Setting a car slot (index ≥ 3) to another car state preserves the
shape; the log is untouched. -/
theorem shape_set_car {s : SimState} (h : ShapeInv s) (k : ℕ) (b : ProcState)
    (hb : isCarSt b = true) (s' : SimState)
    (hprocs : s'.procs = s.procs.set (k + 3) b) (hlog : s'.repairLog = s.repairLog) :
    ShapeInv s' := by
  obtain ⟨hlen, h0, h1, h2, hcar, hcyc⟩ := h
  refine ⟨?_, ?_, ?_, ?_, ?_, ?_⟩
  · rw [hprocs, List.length_set]; exact hlen
  · intro ps hps
    rw [hprocs, List.getElem?_set_ne (by omega)] at hps
    exact h0 ps hps
  · rw [hprocs, List.getElem?_set_ne (by omega)]
    exact h1
  · intro ps hps
    rw [hprocs, List.getElem?_set_ne (by omega)] at hps
    rw [hlog]
    exact h2 ps hps
  · intro k' ps hps
    rw [hprocs] at hps
    by_cases hk : k + 3 = k' + 3
    · rw [← hk] at hps
      have hlt : k + 3 < s.procs.length := by
        have := (List.getElem?_eq_some_iff.mp hps).1
        simpa [List.length_set] using this
      rw [List.getElem?_set_self hlt] at hps
      cases hps
      exact hb
    · rw [List.getElem?_set_ne hk] at hps
      exact hcar k' ps hps
  · rw [hlog]
    exact hcyc

/-- Setting the repair slot (index 2) to a new repair state whose phase
matches the new log preserves the shape. -/
theorem shape_set_repair {s : SimState} (h : ShapeInv s) (b : ProcState)
    (hb : isRepairSt b = true) (s' : SimState)
    (hprocs : s'.procs = s.procs.set 2 b)
    (hph : repairPhase b = s'.repairLog.length % 4)
    (hcyc' : s'.repairLog = cyc s'.repairLog.length) :
    ShapeInv s' := by
  obtain ⟨hlen, h0, h1, h2, hcar, hcyc⟩ := h
  refine ⟨?_, ?_, ?_, ?_, ?_, hcyc'⟩
  · rw [hprocs, List.length_set]; exact hlen
  · intro ps hps
    rw [hprocs, List.getElem?_set_ne (by omega)] at hps
    exact h0 ps hps
  · rw [hprocs, List.getElem?_set_ne (by omega)]
    exact h1
  · intro ps hps
    rw [hprocs, List.getElem?_set_self (by omega)] at hps
    cases hps
    exact ⟨hb, hph⟩
  · intro k' ps hps
    rw [hprocs, List.getElem?_set_ne (by omega)] at hps
    exact hcar k' ps hps

theorem shape_releaseGrant (s : SimState) (h : ShapeInv s) :
    ShapeInv (releaseGrant s) := by
  unfold releaseGrant
  split
  · exact h
  rename_i q rest hq
  split
  · rename_i a heq
    obtain ⟨k, hk⟩ := shape_car_pid h heq rfl
    subst hk
    refine shape_set_car h k (carGranted a) rfl _ ?_ ?_
    · rw [sched_procs]; rfl
    · unfold sched; split <;> rfl
  · rename_i heq
    have hq2 := shape_repair_pid h heq rfl
    subst hq2
    have hph := (h.2.2.2.1 repairQ1 heq).2
    simp only [repairPhase] at hph
    refine shape_set_repair h repairG1 rfl _ ?_ ?_ ?_
    · rw [sched_procs]; rfl
    · have hlog : (sched { setP { s with queue := rest } 2 repairG1 with
          repairLog := 0 :: s.repairLog } 0 2).repairLog = 0 :: s.repairLog := by
        unfold sched; split <;> rfl
      rw [hlog]
      simp only [repairPhase, List.length_cons]
      omega
    · have hlog : (sched { setP { s with queue := rest } 2 repairG1 with
          repairLog := 0 :: s.repairLog } 0 2).repairLog = 0 :: s.repairLog := by
        unfold sched; split <;> rfl
      rw [hlog]
      have hcyc := h.2.2.2.2.2
      simp only [List.length_cons, cyc]
      rw [← hph]
      exact congrArg (List.cons _) hcyc
  · rename_i heq
    have hq2 := shape_repair_pid h heq rfl
    subst hq2
    have hph := (h.2.2.2.1 repairQ2 heq).2
    simp only [repairPhase] at hph
    refine shape_set_repair h repairG2 rfl _ ?_ ?_ ?_
    · rw [sched_procs]; rfl
    · have hlog : (sched { setP { s with queue := rest } 2 repairG2 with
          repairLog := 2 :: s.repairLog } 0 2).repairLog = 2 :: s.repairLog := by
        unfold sched; split <;> rfl
      rw [hlog]
      simp only [repairPhase, List.length_cons]
      omega
    · have hlog : (sched { setP { s with queue := rest } 2 repairG2 with
          repairLog := 2 :: s.repairLog } 0 2).repairLog = 2 :: s.repairLog := by
        unfold sched; split <;> rfl
      rw [hlog]
      have hcyc := h.2.2.2.2.2
      simp only [List.length_cons, cyc]
      rw [← hph]
      exact congrArg (List.cons _) hcyc
  · obtain ⟨hlen, h0, h1, h2, hcar, hcyc⟩ := h
    exact ⟨hlen, h0, h1, h2, hcar, hcyc⟩

/-- The wait-queue invariant: every process waiting in the pool's queue is
in a queued state, and no process waits twice. -/
def QInv (s : SimState) : Prop :=
  (∀ q ∈ s.queue, ∃ ps, s.procs[q]? = some ps ∧ isQueuedSt ps = true) ∧ s.queue.Nodup

theorem qinv_notmem {s : SimState} (hq : QInv s) {p : ℕ} {ps : ProcState}
    (hps : s.procs[p]? = some ps) (hns : isQueuedSt ps = false) : p ∉ s.queue := by
  intro hmem
  obtain ⟨ps', hps', hq'⟩ := hq.1 p hmem
  rw [hps] at hps'
  cases hps'
  rw [hns] at hq'
  cases hq'

theorem qinv_congr {s s' : SimState} (hq : QInv s) (hprocs : s'.procs = s.procs)
    (hqueue : s'.queue = s.queue) : QInv s' := by
  constructor
  · intro r hr
    rw [hqueue] at hr
    obtain ⟨ps', hml, hqs⟩ := hq.1 r hr
    exact ⟨ps', by rw [hprocs]; exact hml, hqs⟩
  · rw [hqueue]; exact hq.2

theorem qinv_set_nonqueued {s : SimState} (hq : QInv s) {p : ℕ} {ps : ProcState}
    (hps : s.procs[p]? = some ps) (hns : isQueuedSt ps = false) (b : ProcState)
    (s' : SimState) (hprocs : s'.procs = s.procs.set p b) (hqueue : s'.queue = s.queue) :
    QInv s' := by
  have hnm := qinv_notmem hq hps hns
  constructor
  · intro r hr
    rw [hqueue] at hr
    obtain ⟨ps', hml, hqs⟩ := hq.1 r hr
    refine ⟨ps', ?_, hqs⟩
    rw [hprocs, List.getElem?_set_ne ?_]
    · exact hml
    · intro hh
      exact hnm (hh ▸ hr)
  · rw [hqueue]; exact hq.2

theorem qinv_enqueue {s : SimState} (hq : QInv s) {p : ℕ} {ps : ProcState}
    (hps : s.procs[p]? = some ps) (hns : isQueuedSt ps = false) (b : ProcState)
    (hb : isQueuedSt b = true) (s' : SimState)
    (hprocs : s'.procs = s.procs.set p b) (hqueue : s'.queue = s.queue ++ [p]) :
    QInv s' := by
  have hnm := qinv_notmem hq hps hns
  have hplen : p < s.procs.length := (List.getElem?_eq_some_iff.mp hps).1
  constructor
  · intro r hr
    rw [hqueue] at hr
    rcases List.mem_append.mp hr with hr | hr
    · obtain ⟨ps', hml, hqs⟩ := hq.1 r hr
      refine ⟨ps', ?_, hqs⟩
      rw [hprocs, List.getElem?_set_ne ?_]
      · exact hml
      · intro hh
        exact hnm (hh ▸ hr)
    · have hrp : r = p := by simpa using hr
      subst hrp
      exact ⟨b, by rw [hprocs]; exact List.getElem?_set_self hplen, hb⟩
  · rw [hqueue]
    refine List.nodup_append.mpr ⟨hq.2, by simp, ?_⟩
    intro r hr
    simp only [List.mem_singleton]
    intro hrp
    exact hnm (hrp ▸ hr)

theorem qinv_append_proc {s : SimState} (hq : QInv s) (b : ProcState) (s' : SimState)
    (hprocs : s'.procs = s.procs ++ [b]) (hqueue : s'.queue = s.queue) : QInv s' := by
  constructor
  · intro r hr
    rw [hqueue] at hr
    obtain ⟨ps', hml, hqs⟩ := hq.1 r hr
    refine ⟨ps', ?_, hqs⟩
    rw [hprocs, List.getElem?_append_left (List.getElem?_eq_some_iff.mp hml).1]
    exact hml
  · rw [hqueue]; exact hq.2

theorem releaseGrant_queue (s : SimState) : (releaseGrant s).queue = s.queue.tail := by
  unfold releaseGrant
  split
  · rename_i hq
    rw [hq]
    rfl
  rename_i q rest hq
  split <;> first
    | (rw [hq]; rfl)
    | (unfold sched; split <;> (rw [hq]; rfl))

theorem qinv_releaseGrant {s : SimState} (hq : QInv s) : QInv (releaseGrant s) := by
  obtain ⟨hmem, hnd⟩ := hq
  unfold releaseGrant
  split
  · exact ⟨hmem, hnd⟩
  rename_i q rest hqq
  have hndq : q ∉ rest := by
    rw [hqq] at hnd
    exact (List.nodup_cons.mp hnd).1
  have hndr : rest.Nodup := by
    rw [hqq] at hnd
    exact (List.nodup_cons.mp hnd).2
  have hsub : ∀ r ∈ rest, r ∈ s.queue := by
    intro r hr
    rw [hqq]
    exact List.mem_cons_of_mem _ hr
  split
  · rename_i a heq
    constructor
    · intro r hr
      have hrr : r ∈ rest := by
        have hsq : (sched (setP { s with queue := rest } q (carGranted a)) 0 q).queue
            = rest := by
          unfold sched
          split <;> rfl
        rwa [hsq] at hr
      obtain ⟨ps', hml, hqs⟩ := hmem r (hsub r hrr)
      refine ⟨ps', ?_, hqs⟩
      rw [sched_procs]
      show (s.procs.set q (carGranted a))[r]? = some ps'
      rw [List.getElem?_set_ne ?_]
      · exact hml
      · intro hh
        exact hndq (hh ▸ hrr)
    · have hsq : (sched (setP { s with queue := rest } q (carGranted a)) 0 q).queue
          = rest := by
        unfold sched
        split <;> rfl
      rw [hsq]
      exact hndr
  · rename_i heq
    constructor
    · intro r hr
      have hrr : r ∈ rest := by
        have hsq : (sched { setP { s with queue := rest } q repairG1 with
            repairLog := 0 :: s.repairLog } 0 q).queue = rest := by
          unfold sched
          split <;> rfl
        rwa [hsq] at hr
      obtain ⟨ps', hml, hqs⟩ := hmem r (hsub r hrr)
      refine ⟨ps', ?_, hqs⟩
      rw [sched_procs]
      show (s.procs.set q repairG1)[r]? = some ps'
      rw [List.getElem?_set_ne ?_]
      · exact hml
      · intro hh
        exact hndq (hh ▸ hrr)
    · have hsq : (sched { setP { s with queue := rest } q repairG1 with
          repairLog := 0 :: s.repairLog } 0 q).queue = rest := by
        unfold sched
        split <;> rfl
      rw [hsq]
      exact hndr
  · rename_i heq
    constructor
    · intro r hr
      have hrr : r ∈ rest := by
        have hsq : (sched { setP { s with queue := rest } q repairG2 with
            repairLog := 2 :: s.repairLog } 0 q).queue = rest := by
          unfold sched
          split <;> rfl
        rwa [hsq] at hr
      obtain ⟨ps', hml, hqs⟩ := hmem r (hsub r hrr)
      refine ⟨ps', ?_, hqs⟩
      rw [sched_procs]
      show (s.procs.set q repairG2)[r]? = some ps'
      rw [List.getElem?_set_ne ?_]
      · exact hml
      · intro hh
        exact hndq (hh ▸ hrr)
    · have hsq : (sched { setP { s with queue := rest } q repairG2 with
          repairLog := 2 :: s.repairLog } 0 q).queue = rest := by
        unfold sched
        split <;> rfl
      rw [hsq]
      exact hndr
  · constructor
    · intro r hr
      have hrr : r ∈ rest := hr
      obtain ⟨ps', hml, hqs⟩ := hmem r (hsub r hrr)
      exact ⟨ps', hml, hqs⟩
    · exact hndr

theorem releaseGrant_get_notmem (s : SimState) (j : ℕ) (hj : j ∉ s.queue) :
    (releaseGrant s).procs[j]? = s.procs[j]? := by
  unfold releaseGrant
  split
  · rfl
  rename_i q rest hq
  have hqj : q ≠ j := by
    intro hh
    rw [hq] at hj
    exact hj (hh ▸ List.mem_cons_self q rest)
  split
  · rw [sched_procs]
    show (s.procs.set q _)[j]? = s.procs[j]?
    exact List.getElem?_set_ne hqj
  · rw [sched_procs]
    show (s.procs.set q _)[j]? = s.procs[j]?
    exact List.getElem?_set_ne hqj
  · rw [sched_procs]
    show (s.procs.set q _)[j]? = s.procs[j]?
    exact List.getElem?_set_ne hqj
  · rfl

theorem sched_queue (s : SimState) (d : ℚ) (p : ℕ) : (sched s d p).queue = s.queue := by
  unfold sched
  split <;> rfl

theorem sched_log (s : SimState) (d : ℚ) (p : ℕ) :
    (sched s d p).repairLog = s.repairLog := by
  unfold sched
  split <;> rfl

theorem shape_congr {s s' : SimState} (h : ShapeInv s) (hprocs : s'.procs = s.procs)
    (hlog : s'.repairLog = s.repairLog) : ShapeInv s' := by
  obtain ⟨hlen, h0, h1, h2, hcar, hcyc⟩ := h
  refine ⟨?_, ?_, ?_, ?_, ?_, ?_⟩
  · rw [hprocs]; exact hlen
  · intro ps hps
    rw [hprocs] at hps
    exact h0 ps hps
  · rw [hprocs]; exact h1
  · intro ps hps
    rw [hprocs] at hps
    rw [hlog]
    exact h2 ps hps
  · intro k ps hps
    rw [hprocs] at hps
    exact hcar k ps hps
  · rw [hlog]; exact hcyc

theorem shape_set_setup {s : SimState} (h : ShapeInv s) (b : ProcState)
    (hb : isSetupSt b = true) (s' : SimState)
    (hprocs : s'.procs = s.procs.set 0 b) (hlog : s'.repairLog = s.repairLog) :
    ShapeInv s' := by
  obtain ⟨hlen, h0, h1, h2, hcar, hcyc⟩ := h
  refine ⟨?_, ?_, ?_, ?_, ?_, ?_⟩
  · rw [hprocs, List.length_set]; exact hlen
  · intro ps hps
    rw [hprocs, List.getElem?_set_self (by omega)] at hps
    cases hps
    exact hb
  · rw [hprocs, List.getElem?_set_ne (by omega)]; exact h1
  · intro ps hps
    rw [hprocs, List.getElem?_set_ne (by omega)] at hps
    rw [hlog]
    exact h2 ps hps
  · intro k ps hps
    rw [hprocs, List.getElem?_set_ne (by omega)] at hps
    exact hcar k ps hps
  · rw [hlog]; exact hcyc

theorem shape_append_car {s : SimState} (h : ShapeInv s) (b : ProcState)
    (hb : isCarSt b = true) (s' : SimState)
    (hprocs : s'.procs = s.procs ++ [b]) (hlog : s'.repairLog = s.repairLog) :
    ShapeInv s' := by
  obtain ⟨hlen, h0, h1, h2, hcar, hcyc⟩ := h
  refine ⟨?_, ?_, ?_, ?_, ?_, ?_⟩
  · rw [hprocs, List.length_append]
    simp only [List.length_cons, List.length_nil]
    omega
  · intro ps hps
    rw [hprocs, List.getElem?_append_left (by omega)] at hps
    exact h0 ps hps
  · rw [hprocs, List.getElem?_append_left (by omega)]; exact h1
  · intro ps hps
    rw [hprocs, List.getElem?_append_left (by omega)] at hps
    rw [hlog]
    exact h2 ps hps
  · intro k ps hps
    rw [hprocs] at hps
    by_cases hlt : k + 3 < s.procs.length
    · rw [List.getElem?_append_left hlt] at hps
      exact hcar k ps hps
    · rw [List.getElem?_append_right (not_lt.mp hlt)] at hps
      rcases hidx : k + 3 - s.procs.length with _ | j
      · rw [hidx] at hps
        simp only [List.getElem?_cons_zero, Option.some_inj] at hps
        rw [← hps]
        exact hb
      · rw [hidx] at hps
        simp at hps
  · rw [hlog]; exact hcyc

theorem qinv_set_notmem {s : SimState} (hq : QInv s) {p : ℕ} (hnm : p ∉ s.queue)
    (b : ProcState) (s' : SimState) (hprocs : s'.procs = s.procs.set p b)
    (hqueue : s'.queue = s.queue) : QInv s' := by
  constructor
  · intro r hr
    rw [hqueue] at hr
    obtain ⟨ps', hml, hqs⟩ := hq.1 r hr
    refine ⟨ps', ?_, hqs⟩
    rw [hprocs, List.getElem?_set_ne ?_]
    · exact hml
    · intro hh
      exact hnm (hh ▸ hr)
  · rw [hqueue]; exact hq.2

theorem qinv_enqueue_pure {s : SimState} (hq : QInv s) {p : ℕ} {ps : ProcState}
    (hps : s.procs[p]? = some ps) (hqs : isQueuedSt ps = true) (hnm : p ∉ s.queue)
    (s' : SimState) (hprocs : s'.procs = s.procs)
    (hqueue : s'.queue = s.queue ++ [p]) : QInv s' := by
  constructor
  · intro r hr
    rw [hqueue] at hr
    rcases List.mem_append.mp hr with hr | hr
    · obtain ⟨ps', hml, hqs'⟩ := hq.1 r hr
      exact ⟨ps', by rw [hprocs]; exact hml, hqs'⟩
    · have hrp : r = p := by simpa using hr
      subst hrp
      exact ⟨ps, by rw [hprocs]; exact hps, hqs⟩
  · rw [hqueue]
    refine List.nodup_append.mpr ⟨hq.2, by simp, ?_⟩
    intro r hr
    simp only [List.mem_singleton]
    intro hrp
    exact hnm (hrp ▸ hr)

theorem sinv_runProc (st : Streams) (s : SimState) (p : ℕ)
    (h : ShapeInv s) (hq : QInv s) :
    ShapeInv (runProc st s p) ∧ QInv (runProc st s p) := by
  rcases hps : s.procs[p]? with _ | ps
  · simp only [runProc, hps]
    exact ⟨h, hq⟩
  cases ps
  case setupInit =>
    have hp0 := shape_setup_pid h hps rfl
    subst hp0
    simp only [runProc, hps]
    split
    · exact ⟨shape_congr h rfl rfl, qinv_congr hq rfl rfl⟩
    · refine ⟨shape_set_setup h setupS rfl _ ?_ ?_,
        qinv_set_notmem hq (qinv_notmem hq hps rfl) setupS _ ?_ ?_⟩
      · rw [sched_procs]
        try rfl
      · rw [sched_log]
        try rfl
      · rw [sched_procs]
        try rfl
      · rw [sched_queue]
        try rfl
  case setupS =>
    have hp0 := shape_setup_pid h hps rfl
    subst hp0
    simp only [runProc, hps]
    split
    · exact ⟨shape_congr h rfl rfl, qinv_congr hq rfl rfl⟩
    · refine ⟨shape_append_car h (carInit s.now) rfl _ ?_ ?_,
        qinv_append_proc hq (carInit s.now) _ ?_ ?_⟩
      · rw [sched_procs, sched_procs]
        try rfl
      · rw [sched_log, sched_log]
        try rfl
      · rw [sched_procs, sched_procs]
        try rfl
      · rw [sched_queue, sched_queue]
        try rfl
  case samplerS =>
    simp only [runProc, hps]
    refine ⟨shape_congr h ?_ ?_, qinv_congr hq ?_ ?_⟩
    · rw [sched_procs]
      try rfl
    · rw [sched_log]
      try rfl
    · rw [sched_procs]
      try rfl
    · rw [sched_queue]
      try rfl
  case repairInit =>
    have hp2 := shape_repair_pid h hps rfl
    subst hp2
    have hph := (h.2.2.2.1 repairInit hps).2
    simp only [repairPhase] at hph
    simp only [runProc, hps]
    split
    · exact ⟨shape_congr h rfl rfl, qinv_congr hq rfl rfl⟩
    · refine ⟨shape_set_repair h repairSleep rfl _ ?_ ?_ ?_,
        qinv_set_notmem hq (qinv_notmem hq hps rfl) repairSleep _ ?_ ?_⟩
      · rw [sched_procs]
        try rfl
      · rw [sched_log]
        simpa [repairPhase] using hph
      · rw [sched_log]
        exact h.2.2.2.2.2
      · rw [sched_procs]
        try rfl
      · rw [sched_queue]
        try rfl
  case repairSleep =>
    have hp2 := shape_repair_pid h hps rfl
    subst hp2
    have hph := (h.2.2.2.1 repairSleep hps).2
    simp only [repairPhase] at hph
    have hcyc := h.2.2.2.2.2
    simp only [runProc, hps]
    split
    · refine ⟨shape_set_repair h repairHold1 rfl _ ?_ ?_ ?_,
        qinv_set_notmem hq (qinv_notmem hq hps rfl) repairHold1 _ ?_ ?_⟩
      · rw [sched_procs]
        try rfl
      · rw [sched_log]
        show repairPhase repairHold1 = (0 :: s.repairLog).length % 4
        simp only [repairPhase, List.length_cons]
        omega
      · rw [sched_log]
        show (0 : ℕ) :: s.repairLog = cyc (0 :: s.repairLog).length
        simp only [List.length_cons, cyc]
        rw [← hph]
        exact congrArg (List.cons _) hcyc
      · rw [sched_procs]
        try rfl
      · rw [sched_queue]
        try rfl
    · refine ⟨shape_set_repair h repairQ1 rfl _ rfl ?_ ?_,
        qinv_enqueue hq hps rfl repairQ1 rfl _ rfl rfl⟩
      · simpa [repairPhase] using hph
      · exact hcyc
  case repairQ1 =>
    simp only [runProc, hps]
    exact ⟨h, hq⟩
  case repairG1 =>
    have hp2 := shape_repair_pid h hps rfl
    subst hp2
    have hph := (h.2.2.2.1 repairG1 hps).2
    simp only [repairPhase] at hph
    simp only [runProc, hps]
    refine ⟨shape_set_repair h repairHold1 rfl _ ?_ ?_ ?_,
      qinv_set_notmem hq (qinv_notmem hq hps rfl) repairHold1 _ ?_ ?_⟩
    · rw [sched_procs]
      try rfl
    · rw [sched_log]
      simpa [repairPhase] using hph
    · rw [sched_log]
      exact h.2.2.2.2.2
    · rw [sched_procs]
      try rfl
    · rw [sched_queue]
      try rfl
  case repairHold1 =>
    have hp2 := shape_repair_pid h hps rfl
    subst hp2
    have hph := (h.2.2.2.1 repairHold1 hps).2
    simp only [repairPhase] at hph
    have hcyc := h.2.2.2.2.2
    have hnm : (2 : ℕ) ∉ s.queue := qinv_notmem hq hps rfl
    have hX : ShapeInv { setP s 2 repairQ2 with repairLog := 1 :: s.repairLog } := by
      refine shape_set_repair h repairQ2 rfl _ rfl ?_ ?_
      · show repairPhase repairQ2 = (1 :: s.repairLog).length % 4
        simp only [repairPhase, List.length_cons]
        omega
      · show (1 : ℕ) :: s.repairLog = cyc (1 :: s.repairLog).length
        simp only [List.length_cons, cyc]
        rw [← hph]
        exact congrArg (List.cons _) hcyc
    have hqX : QInv { setP s 2 repairQ2 with repairLog := 1 :: s.repairLog } :=
      qinv_set_notmem hq hnm repairQ2 _ rfl rfl
    have hs1 := shape_releaseGrant _ hX
    have hq1 := qinv_releaseGrant hqX
    have hX2 : ({ setP s 2 repairQ2 with
        repairLog := 1 :: s.repairLog } : SimState).procs[2]? = some repairQ2 := by
      show (s.procs.set 2 repairQ2)[2]? = some repairQ2
      exact List.getElem?_set_self (by have := h.1; omega)
    have h2X : (releaseGrant { setP s 2 repairQ2 with
        repairLog := 1 :: s.repairLog }).procs[2]? = some repairQ2 := by
      rw [releaseGrant_get_notmem { setP s 2 repairQ2 with
        repairLog := 1 :: s.repairLog } 2 hnm]
      exact hX2
    have hph1 := (hs1.2.2.2.1 repairQ2 h2X).2
    simp only [repairPhase] at hph1
    have hnm1 : (2 : ℕ) ∉ (releaseGrant { setP s 2 repairQ2 with
        repairLog := 1 :: s.repairLog }).queue := by
      rw [releaseGrant_queue]
      intro hm
      exact hnm (List.mem_of_mem_tail hm)
    simp only [runProc, hps]
    split
    · refine ⟨shape_set_repair hs1 repairHold2 rfl _ ?_ ?_ ?_,
        qinv_set_notmem hq1 hnm1 repairHold2 _ ?_ ?_⟩
      · rw [sched_procs]
        try rfl
      · rw [sched_log]
        show repairPhase repairHold2 = (2 :: _).length % 4
        simp only [repairPhase, List.length_cons]
        omega
      · rw [sched_log]
        show (2 : ℕ) :: _ = cyc ((2 : ℕ) :: _).length
        simp only [List.length_cons, cyc]
        rw [← hph1]
        exact congrArg (List.cons _) hs1.2.2.2.2.2
      · rw [sched_procs]
        try rfl
      · rw [sched_queue]
        try rfl
    · refine ⟨shape_congr hs1 rfl rfl,
        qinv_enqueue_pure hq1 h2X rfl hnm1 _ rfl rfl⟩
  case repairQ2 =>
    simp only [runProc, hps]
    exact ⟨h, hq⟩
  case repairG2 =>
    have hp2 := shape_repair_pid h hps rfl
    subst hp2
    have hph := (h.2.2.2.1 repairG2 hps).2
    simp only [repairPhase] at hph
    simp only [runProc, hps]
    refine ⟨shape_set_repair h repairHold2 rfl _ ?_ ?_ ?_,
      qinv_set_notmem hq (qinv_notmem hq hps rfl) repairHold2 _ ?_ ?_⟩
    · rw [sched_procs]
      try rfl
    · rw [sched_log]
      simpa [repairPhase] using hph
    · rw [sched_log]
      exact h.2.2.2.2.2
    · rw [sched_procs]
      try rfl
    · rw [sched_queue]
      try rfl
  case repairHold2 =>
    have hp2 := shape_repair_pid h hps rfl
    subst hp2
    have hph := (h.2.2.2.1 repairHold2 hps).2
    simp only [repairPhase] at hph
    have hcyc := h.2.2.2.2.2
    have hnm : (2 : ℕ) ∉ s.queue := qinv_notmem hq hps rfl
    have hX : ShapeInv { setP s 2 repairSleep with repairLog := 3 :: s.repairLog } := by
      refine shape_set_repair h repairSleep rfl _ rfl ?_ ?_
      · show repairPhase repairSleep = (3 :: s.repairLog).length % 4
        simp only [repairPhase, List.length_cons]
        omega
      · show (3 : ℕ) :: s.repairLog = cyc (3 :: s.repairLog).length
        simp only [List.length_cons, cyc]
        rw [← hph]
        exact congrArg (List.cons _) hcyc
    have hqX : QInv { setP s 2 repairSleep with repairLog := 3 :: s.repairLog } :=
      qinv_set_notmem hq hnm repairSleep _ rfl rfl
    have hs1 := shape_releaseGrant _ hX
    have hq1 := qinv_releaseGrant hqX
    simp only [runProc, hps]
    split
    · exact ⟨shape_congr hs1 rfl rfl, qinv_congr hq1 rfl rfl⟩
    · refine ⟨shape_congr hs1 ?_ ?_, qinv_congr hq1 ?_ ?_⟩
      · rw [sched_procs]
        try rfl
      · rw [sched_log]
        try rfl
      · rw [sched_procs]
        try rfl
      · rw [sched_queue]
        try rfl
  case carInit a =>
    obtain ⟨k, hk⟩ := shape_car_pid h hps rfl
    subst hk
    have hnm := qinv_notmem hq hps rfl
    simp only [runProc, hps]
    split
    · simp only [startWash]
      split
      · exact ⟨shape_congr h rfl rfl, qinv_congr hq rfl rfl⟩
      · refine ⟨shape_set_car h k (carWashing s.now (st.svc s.svcIdx)) rfl _ ?_ ?_,
          qinv_set_notmem hq hnm (carWashing s.now (st.svc s.svcIdx)) _ ?_ ?_⟩
        · rw [sched_procs]
          try rfl
        · rw [sched_log]
          try rfl
        · rw [sched_procs]
          try rfl
        · rw [sched_queue]
          try rfl
    · exact ⟨shape_set_car h k (carQueued a) rfl _ rfl rfl,
        qinv_enqueue hq hps rfl (carQueued a) rfl _ rfl rfl⟩
  case carQueued a =>
    simp only [runProc, hps]
    exact ⟨h, hq⟩
  case carGranted a =>
    obtain ⟨k, hk⟩ := shape_car_pid h hps rfl
    subst hk
    have hnm := qinv_notmem hq hps rfl
    simp only [runProc, hps]
    simp only [startWash]
    split
    · exact ⟨shape_congr h rfl rfl, qinv_congr hq rfl rfl⟩
    · refine ⟨shape_set_car h k (carWashing s.now (st.svc s.svcIdx)) rfl _ ?_ ?_,
        qinv_set_notmem hq hnm (carWashing s.now (st.svc s.svcIdx)) _ ?_ ?_⟩
      · rw [sched_procs]
        try rfl
      · rw [sched_log]
        try rfl
      · rw [sched_procs]
        try rfl
      · rw [sched_queue]
        try rfl
  case carWashing start svc =>
    obtain ⟨k, hk⟩ := shape_car_pid h hps rfl
    subst hk
    have hnm := qinv_notmem hq hps rfl
    simp only [runProc, hps]
    have hX : ShapeInv { setP s (k + 3) carDone with
        busy_time := s.busy_time + (s.now - start),
        completions := (s.now - start, svc) :: s.completions,
        processed_cars := s.processed_cars + 1 } :=
      shape_set_car h k carDone rfl _ rfl rfl
    have hqX : QInv { setP s (k + 3) carDone with
        busy_time := s.busy_time + (s.now - start),
        completions := (s.now - start, svc) :: s.completions,
        processed_cars := s.processed_cars + 1 } :=
      qinv_set_notmem hq hnm carDone _ rfl rfl
    exact ⟨shape_releaseGrant _ hX, qinv_releaseGrant hqX⟩
  case carDone =>
    simp only [runProc, hps]
    exact ⟨h, hq⟩

theorem sinv_step (st : Streams) (s : SimState) (h : ShapeInv s) (hq : QInv s) :
    ShapeInv (step st s) ∧ QInv (step st s) := by
  unfold step
  split
  · exact ⟨h, hq⟩
  split
  · exact ⟨h, hq⟩
  split
  · exact sinv_runProc st _ _ (shape_congr h rfl rfl) (qinv_congr hq rfl rfl)
  · exact ⟨h, hq⟩

theorem sinv_runFuel (st : Streams) (n : ℕ) (s : SimState)
    (h : ShapeInv s) (hq : QInv s) :
    ShapeInv (runFuel st n s) ∧ QInv (runFuel st n s) := by
  induction n generalizing s with
  | zero => exact ⟨h, hq⟩
  | succ n ih =>
    obtain ⟨h', hq'⟩ := sinv_step st s h hq
    exact ih _ h' hq'

theorem shape_init : ShapeInv init := by
  refine ⟨by decide, ?_, rfl, ?_, ?_, rfl⟩
  · intro ps hps
    cases hps
    rfl
  · intro ps hps
    cases hps
    exact ⟨rfl, rfl⟩
  · intro k ps hps
    simp [init] at hps

theorem countP_le_one_unique {α : Type} (p : α → Bool) (l : List α) (i : ℕ)
    (h : ∀ j, (hj : j < l.length) → p (l.get ⟨j, hj⟩) = true → j = i) :
    l.countP p ≤ 1 := by
  induction l generalizing i with
  | nil => simp
  | cons x xs ih =>
    rw [List.countP_cons]
    by_cases hx : p x = true
    · have h0 : 0 = i := h 0 (by simp) hx
      have hxs : xs.countP p = 0 := by
        rw [List.countP_eq_zero]
        intro y hy hpy
        obtain ⟨n, hyn⟩ := List.mem_iff_get.mp hy
        have hlt : n.1 + 1 < (x :: xs).length := by
          have := n.2
          simp only [List.length_cons]
          omega
        have hget : (x :: xs).get ⟨n.1 + 1, hlt⟩ = y := by
          rw [← hyn]
          exact rfl
        have := h (n.1 + 1) hlt (by rw [hget]; exact hpy)
        omega
      simp [hx, hxs]
    · have hb : p x = false := by simpa using hx
      have := ih (i - 1) ?_
      · simp [hb]
        omega
      · intro j hj hpj
        have := h (j + 1) (by simpa using hj) hpj
        omega

theorem shape_repairHeld_le_one {s : SimState} (h : ShapeInv s) : repairHeld s ≤ 1 := by
  refine countP_le_one_unique isRepairHold s.procs 2 ?_
  intro j hj hpj
  have hps : s.procs[j]? = some (s.procs.get ⟨j, hj⟩) := by
    rw [List.getElem?_eq_some_iff]
    exact ⟨hj, rfl⟩
  refine shape_repair_pid h hps ?_
  revert hpj
  cases s.procs.get ⟨j, hj⟩ <;> simp [isRepairHold, isRepairSt]

/-- C3: in every run the repair person never holds two machines offline at
once — the count of repair-held machines is at most 1, so the effective
capacity `NUM_MACHINES - repairHeld` stays at least 1 — and the repair
log always follows the strict per-cycle order offline-1, restore-1,
offline-2, restore-2 (it is a prefix of the infinite alternation `cyc`),
so the first machine is fully restored before the second is taken
offline. -/
theorem staggered_repair_one_at_a_time (st : Streams) (n : ℕ) :
    repairHeld (run st n) ≤ 1 ∧
    1 ≤ NUM_MACHINES - repairHeld (run st n) ∧
    (run st n).repairLog = cyc (run st n).repairLog.length := by
  obtain ⟨hsh, _⟩ := sinv_runFuel st n init shape_init ⟨by simp [init], by simp [init]⟩
  have h1 : repairHeld (run st n) ≤ 1 := shape_repairHeld_le_one hsh
  refine ⟨h1, ?_, hsh.2.2.2.2.2⟩
  have h2 : NUM_MACHINES = 2 := rfl
  omega

/-! ## C9: all scheduled delays are non-negative -/

theorem noerr_sched (s : SimState) (d : ℚ) (p : ℕ) (hd : 0 ≤ d)
    (h : s.error = false) : (sched s d p).error = false := by
  unfold sched
  rw [if_neg (not_lt.mpr hd)]
  exact h

theorem noerr_releaseGrant (s : SimState) (h : s.error = false) :
    (releaseGrant s).error = false := by
  unfold releaseGrant
  split
  · exact h
  split
  · exact noerr_sched _ 0 _ le_rfl h
  · exact noerr_sched _ 0 _ le_rfl h
  · exact noerr_sched _ 0 _ le_rfl h
  · exact h

theorem halfRepair_nonneg : (0 : ℚ) ≤ halfRepair := by
  unfold halfRepair
  exact Nat.cast_nonneg _

theorem rep_cast_nonneg (st : Streams) (hst : Nonneg st) (k : ℕ) :
    (0 : ℚ) ≤ ((st.rep k : ℤ) : ℚ) := by
  have h := (hst k).2.2.1
  have h40 : (0 : ℤ) ≤ st.rep k := le_trans (by norm_num [REPAIR_INTERVAL_MIN]) h
  exact_mod_cast h40

theorem noerr_runProc (st : Streams) (hst : Nonneg st) (s : SimState) (p : ℕ)
    (h : s.error = false) : (runProc st s p).error = false := by
  rcases hps : s.procs[p]? with _ | ps
  · simpa [runProc, hps] using h
  cases ps
  case setupInit =>
    simp only [runProc, hps]
    split
    · rename_i hlt
      exact absurd hlt (not_lt.mpr (hst s.interIdx).1)
    · exact noerr_sched _ _ _ (hst s.interIdx).1 h
  case setupS =>
    simp only [runProc, hps]
    split
    · rename_i hlt
      exact absurd hlt (not_lt.mpr (hst s.interIdx).1)
    · exact noerr_sched _ _ _ (hst s.interIdx).1 (noerr_sched _ 0 _ le_rfl h)
  case samplerS =>
    simp only [runProc, hps]
    exact noerr_sched _ 1 _ (by norm_num) h
  case repairInit =>
    simp only [runProc, hps]
    split
    · rename_i hlt
      exact absurd hlt (not_lt.mpr (rep_cast_nonneg st hst s.repIdx))
    · exact noerr_sched _ _ _ (rep_cast_nonneg st hst s.repIdx) h
  case repairSleep =>
    simp only [runProc, hps]
    split
    · exact noerr_sched _ _ _ halfRepair_nonneg h
    · exact h
  case repairQ1 =>
    simpa [runProc, hps] using h
  case repairG1 =>
    simp only [runProc, hps]
    exact noerr_sched _ _ _ halfRepair_nonneg h
  case repairHold1 =>
    simp only [runProc, hps]
    have hs1 : (releaseGrant { setP s p repairQ2 with
        repairLog := 1 :: s.repairLog }).error = false := noerr_releaseGrant _ h
    split
    · exact noerr_sched _ _ _ halfRepair_nonneg hs1
    · exact hs1
  case repairQ2 =>
    simpa [runProc, hps] using h
  case repairG2 =>
    simp only [runProc, hps]
    exact noerr_sched _ _ _ halfRepair_nonneg h
  case repairHold2 =>
    simp only [runProc, hps]
    have hs1 : (releaseGrant { setP s p repairSleep with
        repairLog := 3 :: s.repairLog }).error = false := noerr_releaseGrant _ h
    split
    · rename_i hlt
      exact absurd hlt (not_lt.mpr (rep_cast_nonneg st hst _))
    · exact noerr_sched _ _ _ (rep_cast_nonneg st hst _) hs1
  case carInit a =>
    simp only [runProc, hps]
    split
    · simp only [startWash]
      split
      · rename_i hlt
        exact absurd hlt (not_lt.mpr (hst s.svcIdx).2.1)
      · exact noerr_sched _ _ _ (hst s.svcIdx).2.1 h
    · exact h
  case carQueued a =>
    simpa [runProc, hps] using h
  case carGranted a =>
    simp only [runProc, hps]
    simp only [startWash]
    split
    · rename_i hlt
      exact absurd hlt (not_lt.mpr (hst s.svcIdx).2.1)
    · exact noerr_sched _ _ _ (hst s.svcIdx).2.1 h
  case carWashing start svc =>
    simp only [runProc, hps]
    exact noerr_releaseGrant _ h
  case carDone =>
    simpa [runProc, hps] using h

theorem noerr_step (st : Streams) (hst : Nonneg st) (s : SimState)
    (h : s.error = false) : (step st s).error = false := by
  unfold step
  split
  · exact h
  split
  · exact h
  split
  · exact noerr_runProc st hst _ _ h
  · exact h

theorem noerr_runFuel (st : Streams) (hst : Nonneg st) (n : ℕ) (s : SimState)
    (h : s.error = false) : (runFuel st n s).error = false := by
  induction n generalizing s with
  | zero => exact h
  | succ n ih => exact ih _ (noerr_step st hst s h)

/-- C9: with the samplers honouring their contracts (exponential draws are
non-negative, `randint(40, 60)` lies in `[40, 60]`), every delay any domain
process hands to the scheduler — inter-arrival gaps, service times, the
sampler's 1-minute period, the repair interval, and the half repair
duration — is non-negative, so the `InvalidDelay` error branch is
unreachable in every run: the error flag never becomes true. -/
theorem no_invalid_delay (st : Streams) (hst : Nonneg st) (n : ℕ) :
    (run st n).error = false :=
  noerr_runFuel st hst n init rfl

theorem exS_nonneg : Nonneg exS := by
  intro n
  refine ⟨by norm_num [exS], by norm_num [exS], ?_, ?_⟩
  · norm_num [exS, REPAIR_INTERVAL_MIN]
  · norm_num [exS, REPAIR_INTERVAL_MAX]

/-- Witness for C9 at the example streams. -/
theorem no_invalid_delay_w : (run exS 12).error = false :=
  no_invalid_delay exS exS_nonneg 12

/-! ## C7: utilization is bounded in [0, 1] -/

theorem mem_insertEvt {e : Evt} {l : List Evt} {y : Evt} :
    y ∈ insertEvt e l ↔ y = e ∨ y ∈ l := by
  induction l with
  | nil => simp [insertEvt]
  | cons x xs ih =>
    unfold insertEvt
    split <;> simp only [List.mem_cons, ih] <;> try tauto

theorem pairwise_insertEvt {e : Evt} {l : List Evt}
    (hl : l.Pairwise fun a b => a.time ≤ b.time) :
    (insertEvt e l).Pairwise fun a b => a.time ≤ b.time := by
  induction l with
  | nil => simp [insertEvt]
  | cons x xs ih =>
    unfold insertEvt
    obtain ⟨hx, hxs⟩ := List.pairwise_cons.mp hl
    split
    · rename_i hcond
      have het : e.time ≤ x.time := by
        rcases hcond with hlt | ⟨heq, _⟩
        · exact le_of_lt hlt
        · exact le_of_eq heq
      refine List.pairwise_cons.mpr ⟨?_, hl⟩
      intro b hb
      rcases List.mem_cons.mp hb with rfl | hb
      · exact het
      · exact le_trans het (hx b hb)
    · rename_i hcond
      have hxe : x.time ≤ e.time := le_of_not_lt fun hh => hcond (Or.inl hh)
      refine List.pairwise_cons.mpr ⟨?_, ih hxs⟩
      intro b hb
      rcases mem_insertEvt.mp hb with rfl | hb
      · exact hxe
      · exact hx b hb

theorem evinv_sched (s : SimState) (d : ℚ) (p : ℕ)
    (hpw : s.events.Pairwise fun a b => a.time ≤ b.time)
    (hcoh : ∀ e ∈ s.events, s.now ≤ e.time) :
    ((sched s d p).events.Pairwise fun a b => a.time ≤ b.time) ∧
    (∀ e ∈ (sched s d p).events, s.now ≤ e.time) := by
  unfold sched
  split
  · exact ⟨hpw, hcoh⟩
  · rename_i hd
    refine ⟨pairwise_insertEvt hpw, ?_⟩
    intro y hy
    rcases mem_insertEvt.mp hy with rfl | hy
    · show s.now ≤ s.now + d
      linarith [not_lt.mp hd]
    · exact hcoh y hy

theorem sched_now (s : SimState) (d : ℚ) (p : ℕ) : (sched s d p).now = s.now := by
  unfold sched
  split <;> rfl

theorem sched_busy (s : SimState) (d : ℚ) (p : ℕ) :
    (sched s d p).busy_time = s.busy_time := by
  unfold sched
  split <;> rfl

theorem releaseGrant_now (s : SimState) : (releaseGrant s).now = s.now := by
  unfold releaseGrant
  split
  · rfl
  split <;> rfl

theorem releaseGrant_busy (s : SimState) : (releaseGrant s).busy_time = s.busy_time := by
  unfold releaseGrant
  split
  · rfl
  split <;> rfl

theorem washSum_congr {s s' : SimState} (hnow : s'.now = s.now)
    (hpr : s'.procs = s.procs) : washSum s' = washSum s := by
  unfold washSum
  rw [hnow, hpr]

/-- If its argument list is updated at a position holding `a` with `b`, the
running-wash total changes by the difference of their elapsed times. -/
theorem washSum_set (t : ℚ) (l : List ProcState) (i : ℕ) (a b : ProcState)
    (h : l[i]? = some a) :
    ((l.set i b).map (washElapsed t)).sum
      = (l.map (washElapsed t)).sum + washElapsed t b - washElapsed t a :=
  sum_map_set (washElapsed t) l i a b h

theorem washSum_shift (l : List ProcState) (t u : ℚ) :
    (l.map (washElapsed t)).sum
      = (l.map (washElapsed u)).sum + (l.countP isWashing : ℚ) * (t - u) := by
  induction l with
  | nil => simp
  | cons x xs ih =>
    simp only [List.map_cons, List.sum_cons, List.countP_cons, ih]
    cases x <;> simp [washElapsed, isWashing] <;> push_cast <;> ring

theorem washSum_nonneg {s : SimState}
    (hw : ∀ (p : ℕ) (a b : ℚ), s.procs[p]? = some (carWashing a b) → a ≤ s.now) :
    0 ≤ washSum s := by
  unfold washSum
  refine List.sum_nonneg ?_
  intro x hx
  obtain ⟨y, hy, hxy⟩ := List.mem_map.mp hx
  obtain ⟨n, hyn⟩ := List.mem_iff_get.mp hy
  have hget : s.procs[n.1]? = some y := by
    rw [List.getElem?_eq_some_iff]
    exact ⟨n.2, hyn⟩
  rw [← hxy]
  cases hy2 : y <;> simp only [washElapsed]
  all_goals try exact le_refl 0
  rename_i a b
  have hget2 : s.procs[n.1]? = some (carWashing a b) := by
    rw [← hy2]
    exact hget
  have := hw n.1 a b hget2
  linarith

/-- The run-invariant behind C7: the event queue is sorted by time, no
pending event is in the past, the clock never passes the horizon, every
wash in progress started in the past, and the accumulated busy time plus
the elapsed time of all in-progress washes never exceeds machines × now. -/
structure Inv7 (s : SimState) : Prop where
  pw : s.events.Pairwise fun a b => a.time ≤ b.time
  coh : ∀ e ∈ s.events, s.now ≤ e.time
  hz : s.now ≤ SIM_TIME
  wstart : ∀ (p : ℕ) (a b : ℚ), s.procs[p]? = some (carWashing a b) → a ≤ s.now
  bz : 0 ≤ s.busy_time
  bb : s.busy_time + washSum s ≤ (NUM_MACHINES : ℚ) * s.now

theorem getElem?_set_cases {α : Type} (l : List α) (q p : ℕ) (b : α) :
    (l.set q b)[p]? = l[p]? ∨ (q = p ∧ q < l.length ∧ (l.set q b)[p]? = some b) := by
  by_cases hq : q = p
  · subst hq
    by_cases hl : q < l.length
    · exact Or.inr ⟨rfl, hl, List.getElem?_set_self hl⟩
    · rw [List.set_eq_of_length_le (not_lt.mp hl)]
      exact Or.inl rfl
  · exact Or.inl (List.getElem?_set_ne hq)

theorem wstart_set_nonwash {s : SimState}
    (hw : ∀ (p : ℕ) (a b : ℚ), s.procs[p]? = some (carWashing a b) → a ≤ s.now)
    (q : ℕ) (b : ProcState) (hb : isWashing b = false) :
    ∀ (p : ℕ) (a c : ℚ), (s.procs.set q b)[p]? = some (carWashing a c) → a ≤ s.now := by
  intro p a c hp
  rcases getElem?_set_cases s.procs q p b with hcase | ⟨_, _, hcase⟩
  · rw [hcase] at hp
    exact hw p a c hp
  · rw [hcase] at hp
    cases hp
    simp [isWashing] at hb

theorem inv7_congr {s s' : SimState} (h : Inv7 s) (hnow : s'.now = s.now)
    (hev : s'.events = s.events) (hpr : s'.procs = s.procs)
    (hb : s'.busy_time = s.busy_time) : Inv7 s' := by
  refine ⟨?_, ?_, ?_, ?_, ?_, ?_⟩
  · rw [hev]; exact h.pw
  · intro e he
    rw [hev] at he
    rw [hnow]
    exact h.coh e he
  · rw [hnow]; exact h.hz
  · intro p a b hp
    rw [hpr] at hp
    rw [hnow]
    exact h.wstart p a b hp
  · rw [hb]; exact h.bz
  · rw [hb, hnow, washSum_congr hnow hpr]
    exact h.bb

theorem inv7_sched (s : SimState) (h : Inv7 s) (d : ℚ) (q : ℕ) :
    Inv7 (sched s d q) := by
  obtain ⟨hpw', hcoh'⟩ := evinv_sched s d q h.pw h.coh
  refine ⟨hpw', ?_, ?_, ?_, ?_, ?_⟩
  · intro e he
    rw [sched_now]
    exact hcoh' e he
  · rw [sched_now]; exact h.hz
  · intro p a b hp
    rw [sched_procs] at hp
    rw [sched_now]
    exact h.wstart p a b hp
  · rw [sched_busy]; exact h.bz
  · rw [sched_busy, sched_now, washSum_congr (sched_now s d q) (sched_procs s d q)]
    exact h.bb

theorem inv7_set (s : SimState) (h : Inv7 s) (X : SimState) (p : ℕ) (a b : ProcState)
    (hps : s.procs[p]? = some a)
    (hXnow : X.now = s.now) (hXev : X.events = s.events)
    (hXpr : X.procs = s.procs.set p b) (hXb : X.busy_time = s.busy_time)
    (hbstart : ∀ u v, b = carWashing u v → u ≤ s.now)
    (hb0 : washElapsed s.now b = 0)
    (ha0 : washElapsed s.now a = 0) : Inv7 X := by
  refine ⟨?_, ?_, ?_, ?_, ?_, ?_⟩
  · rw [hXev]; exact h.pw
  · intro e he
    rw [hXev] at he
    rw [hXnow]
    exact h.coh e he
  · rw [hXnow]; exact h.hz
  · intro p' a' b' hp
    rw [hXpr] at hp
    rw [hXnow]
    rcases getElem?_set_cases s.procs p p' b with hc | ⟨_, _, hc⟩
    · rw [hc] at hp
      exact h.wstart p' a' b' hp
    · rw [hc] at hp
      exact hbstart a' b' (Option.some_inj.mp hp)
  · rw [hXb]; exact h.bz
  · rw [hXb, hXnow]
    have hws : washSum X = washSum s + washElapsed s.now b - washElapsed s.now a := by
      unfold washSum
      rw [hXnow, hXpr]
      exact washSum_set s.now s.procs p a b hps
    rw [hws, hb0, ha0]
    have := h.bb
    linarith

theorem inv7_append (s : SimState) (h : Inv7 s) (X : SimState) (b : ProcState)
    (hXnow : X.now = s.now) (hXev : X.events = s.events)
    (hXpr : X.procs = s.procs ++ [b]) (hXb : X.busy_time = s.busy_time)
    (hbstart : ∀ u v, b = carWashing u v → u ≤ s.now)
    (hb0 : washElapsed s.now b = 0) : Inv7 X := by
  refine ⟨?_, ?_, ?_, ?_, ?_, ?_⟩
  · rw [hXev]; exact h.pw
  · intro e he
    rw [hXev] at he
    rw [hXnow]
    exact h.coh e he
  · rw [hXnow]; exact h.hz
  · intro p' a' b' hp
    rw [hXpr] at hp
    rw [hXnow]
    by_cases hlt : p' < s.procs.length
    · rw [List.getElem?_append_left hlt] at hp
      exact h.wstart p' a' b' hp
    · rw [List.getElem?_append_right (not_lt.mp hlt)] at hp
      rcases hidx : p' - s.procs.length with _ | j
      · rw [hidx] at hp
        simp only [List.getElem?_cons_zero, Option.some_inj] at hp
        exact hbstart a' b' hp
      · rw [hidx] at hp
        simp at hp
  · rw [hXb]; exact h.bz
  · rw [hXb, hXnow]
    have hws : washSum X = washSum s + washElapsed s.now b := by
      unfold washSum
      rw [hXnow, hXpr, List.map_append, List.sum_append]
      simp
    rw [hws, hb0]
    have := h.bb
    linarith

theorem inv7_releaseGrant (s : SimState) (h : Inv7 s) : Inv7 (releaseGrant s) := by
  unfold releaseGrant
  split
  · exact h
  rename_i q rest hq
  split
  · rename_i a heq
    refine inv7_sched _ ?_ 0 q
    refine inv7_set s h _ q (carQueued a) (carGranted a) heq ?_ ?_ ?_ ?_ ?_ ?_ ?_
    · rfl
    · rfl
    · rfl
    · rfl
    · intro u v hbc; cases hbc
    · rfl
    · rfl
  · rename_i heq
    refine inv7_sched _ ?_ 0 q
    refine inv7_set s h _ q repairQ1 repairG1 heq ?_ ?_ ?_ ?_ ?_ ?_ ?_
    · rfl
    · rfl
    · rfl
    · rfl
    · intro u v hbc; cases hbc
    · rfl
    · rfl
  · rename_i heq
    refine inv7_sched _ ?_ 0 q
    refine inv7_set s h _ q repairQ2 repairG2 heq ?_ ?_ ?_ ?_ ?_ ?_ ?_
    · rfl
    · rfl
    · rfl
    · rfl
    · intro u v hbc; cases hbc
    · rfl
    · rfl
  · refine inv7_congr h ?_ ?_ ?_ ?_ <;> rfl

theorem inv7_runProc (st : Streams) (s : SimState) (p : ℕ) (h : Inv7 s) :
    Inv7 (runProc st s p) := by
  rcases hps : s.procs[p]? with _ | ps
  · simp only [runProc, hps]
    exact h
  cases ps
  case setupInit =>
    simp only [runProc, hps]
    split
    · refine inv7_congr h ?_ ?_ ?_ ?_ <;> rfl
    · refine inv7_sched _ ?_ _ p
      refine inv7_set s h _ p setupInit setupS hps ?_ ?_ ?_ ?_ ?_ ?_ ?_
      · rfl
      · rfl
      · rfl
      · rfl
      · intro u v hbc; cases hbc
      · rfl
      · rfl
  case setupS =>
    simp only [runProc, hps]
    split
    · refine inv7_congr h ?_ ?_ ?_ ?_ <;> rfl
    · refine inv7_sched _ ?_ _ p
      refine inv7_sched _ ?_ 0 _
      refine inv7_append s h _ (carInit s.now) ?_ ?_ ?_ ?_ ?_ ?_
      · rfl
      · rfl
      · rfl
      · rfl
      · intro u v hbc; cases hbc
      · rfl
  case samplerS =>
    simp only [runProc, hps]
    refine inv7_sched _ ?_ 1 p
    refine inv7_congr h ?_ ?_ ?_ ?_ <;> rfl
  case repairInit =>
    simp only [runProc, hps]
    split
    · refine inv7_congr h ?_ ?_ ?_ ?_ <;> rfl
    · refine inv7_sched _ ?_ _ p
      refine inv7_set s h _ p repairInit repairSleep hps ?_ ?_ ?_ ?_ ?_ ?_ ?_
      · rfl
      · rfl
      · rfl
      · rfl
      · intro u v hbc; cases hbc
      · rfl
      · rfl
  case repairSleep =>
    simp only [runProc, hps]
    split
    · refine inv7_sched _ ?_ _ p
      refine inv7_set s h _ p repairSleep repairHold1 hps ?_ ?_ ?_ ?_ ?_ ?_ ?_
      · rfl
      · rfl
      · rfl
      · rfl
      · intro u v hbc; cases hbc
      · rfl
      · rfl
    · refine inv7_set s h _ p repairSleep repairQ1 hps ?_ ?_ ?_ ?_ ?_ ?_ ?_
      · rfl
      · rfl
      · rfl
      · rfl
      · intro u v hbc; cases hbc
      · rfl
      · rfl
  case repairQ1 =>
    simp only [runProc, hps]
    exact h
  case repairG1 =>
    simp only [runProc, hps]
    refine inv7_sched _ ?_ _ p
    refine inv7_set s h _ p repairG1 repairHold1 hps ?_ ?_ ?_ ?_ ?_ ?_ ?_
    · rfl
    · rfl
    · rfl
    · rfl
    · intro u v hbc; cases hbc
    · rfl
    · rfl
  case repairHold1 =>
    simp only [runProc, hps]
    have hplen : p < s.procs.length := (List.getElem?_eq_some_iff.mp hps).1
    have hX : Inv7 { setP s p repairQ2 with repairLog := 1 :: s.repairLog } := by
      refine inv7_set s h _ p repairHold1 repairQ2 hps ?_ ?_ ?_ ?_ ?_ ?_ ?_
      · rfl
      · rfl
      · rfl
      · rfl
      · intro u v hbc; cases hbc
      · rfl
      · rfl
    have hS1 := inv7_releaseGrant _ hX
    have hXp : ({ setP s p repairQ2 with
        repairLog := 1 :: s.repairLog } : SimState).procs[p]? = some repairQ2 := by
      show (s.procs.set p repairQ2)[p]? = some repairQ2
      exact List.getElem?_set_self (by simpa using hplen)
    have hS1p : (releaseGrant { setP s p repairQ2 with
          repairLog := 1 :: s.repairLog }).procs[p]? = some repairQ2 ∨
        (releaseGrant { setP s p repairQ2 with
          repairLog := 1 :: s.repairLog }).procs[p]? = some repairG2 := by
      rcases releaseGrant_get { setP s p repairQ2 with
          repairLog := 1 :: s.repairLog } p with hg | ⟨a', ha', _⟩ | ⟨ha', _⟩ | ⟨_, hg⟩
      · left; rw [hg]; exact hXp
      · rw [hXp] at ha'; exact absurd ha' (by simp)
      · rw [hXp] at ha'; exact absurd ha' (by simp)
      · right; exact hg
    split
    · rcases hS1p with hS1p | hS1p
      · refine inv7_sched _ ?_ _ p
        refine inv7_set _ hS1 _ p repairQ2 repairHold2 hS1p ?_ ?_ ?_ ?_ ?_ ?_ ?_
        · rfl
        · rfl
        · rfl
        · rfl
        · intro u v hbc; cases hbc
        · rfl
        · rfl
      · refine inv7_sched _ ?_ _ p
        refine inv7_set _ hS1 _ p repairG2 repairHold2 hS1p ?_ ?_ ?_ ?_ ?_ ?_ ?_
        · rfl
        · rfl
        · rfl
        · rfl
        · intro u v hbc; cases hbc
        · rfl
        · rfl
    · refine inv7_congr hS1 ?_ ?_ ?_ ?_ <;> rfl
  case repairQ2 =>
    simp only [runProc, hps]
    exact h
  case repairG2 =>
    simp only [runProc, hps]
    refine inv7_sched _ ?_ _ p
    refine inv7_set s h _ p repairG2 repairHold2 hps ?_ ?_ ?_ ?_ ?_ ?_ ?_
    · rfl
    · rfl
    · rfl
    · rfl
    · intro u v hbc; cases hbc
    · rfl
    · rfl
  case repairHold2 =>
    simp only [runProc, hps]
    have hX : Inv7 { setP s p repairSleep with repairLog := 3 :: s.repairLog } := by
      refine inv7_set s h _ p repairHold2 repairSleep hps ?_ ?_ ?_ ?_ ?_ ?_ ?_
      · rfl
      · rfl
      · rfl
      · rfl
      · intro u v hbc; cases hbc
      · rfl
      · rfl
    have hS1 := inv7_releaseGrant _ hX
    split
    · refine inv7_congr hS1 ?_ ?_ ?_ ?_ <;> rfl
    · refine inv7_sched _ ?_ _ p
      refine inv7_congr hS1 ?_ ?_ ?_ ?_ <;> rfl
  case carInit a =>
    simp only [runProc, hps]
    split
    · simp only [startWash]
      split
      · refine inv7_congr h ?_ ?_ ?_ ?_ <;> rfl
      · refine inv7_sched _ ?_ _ p
        refine inv7_set s h _ p (carInit a)
          (carWashing s.now (st.svc s.svcIdx)) hps ?_ ?_ ?_ ?_ ?_ ?_ ?_
        · rfl
        · rfl
        · rfl
        · rfl
        · intro u v hbc
          injection hbc with h1 h2
          rw [← h1]
        · simp [washElapsed]
        · rfl
    · refine inv7_set s h _ p (carInit a) (carQueued a) hps ?_ ?_ ?_ ?_ ?_ ?_ ?_
      · rfl
      · rfl
      · rfl
      · rfl
      · intro u v hbc; cases hbc
      · rfl
      · rfl
  case carQueued a =>
    simp only [runProc, hps]
    exact h
  case carGranted a =>
    simp only [runProc, hps]
    simp only [startWash]
    split
    · refine inv7_congr h ?_ ?_ ?_ ?_ <;> rfl
    · refine inv7_sched _ ?_ _ p
      refine inv7_set s h _ p (carGranted a)
        (carWashing s.now (st.svc s.svcIdx)) hps ?_ ?_ ?_ ?_ ?_ ?_ ?_
      · rfl
      · rfl
      · rfl
      · rfl
      · intro u v hbc
        injection hbc with h1 h2
        rw [← h1]
      · simp [washElapsed]
      · rfl
  case carWashing start svc =>
    simp only [runProc, hps]
    have hstart : start ≤ s.now := h.wstart p start svc hps
    have hS1 : Inv7 { setP s p carDone with
        busy_time := s.busy_time + (s.now - start),
        completions := (s.now - start, svc) :: s.completions,
        processed_cars := s.processed_cars + 1 } := by
      refine ⟨h.pw, h.coh, h.hz, ?_, ?_, ?_⟩
      · intro p' a' b' hp
        exact wstart_set_nonwash h.wstart p carDone rfl p' a' b' hp
      · show 0 ≤ s.busy_time + (s.now - start)
        have := h.bz
        linarith
      · show s.busy_time + (s.now - start) + _ ≤ _
        have hws : washSum { setP s p carDone with
            busy_time := s.busy_time + (s.now - start),
            completions := (s.now - start, svc) :: s.completions,
            processed_cars := s.processed_cars + 1 }
            = washSum s + washElapsed s.now carDone
              - washElapsed s.now (carWashing start svc) := by
          unfold washSum
          exact washSum_set s.now s.procs p (carWashing start svc) carDone hps
        rw [hws]
        simp only [washElapsed]
        have hnoweq : (setP s p carDone).now = s.now := rfl
        rw [hnoweq]
        have := h.bb
        linarith
    exact inv7_releaseGrant _ hS1
  case carDone =>
    simp only [runProc, hps]
    exact h

theorem washing_le_holds (s : SimState) :
    s.procs.countP isWashing ≤ s.procs.countP holdsSlot :=
  List.countP_mono_left fun x _ hx => by
    cases x <;> simp [isWashing, holdsSlot] at hx ⊢

theorem inv7_step (st : Streams) (s : SimState)
    (hcap : inUse s ≤ NUM_MACHINES) (h : Inv7 s) : Inv7 (step st s) := by
  unfold step
  split
  · exact h
  split
  · exact h
  rename_i hnn e rest hev
  split
  · rename_i htle
    refine inv7_runProc st _ _ ?_
    have hpwc := List.pairwise_cons.mp (hev ▸ h.pw)
    have hnow_le : s.now ≤ e.time := h.coh e (by rw [hev]; exact List.mem_cons_self _ _)
    refine ⟨hpwc.2, ?_, htle, ?_, h.bz, ?_⟩
    · intro e' he'
      exact hpwc.1 e' he'
    · intro p a b hp
      exact le_trans (h.wstart p a b hp) hnow_le
    · show s.busy_time + washSum { s with now := e.time, events := rest }
        ≤ (NUM_MACHINES : ℚ) * e.time
      have hw2 : washSum { s with now := e.time, events := rest }
          = (s.procs.map (washElapsed s.now)).sum
            + (s.procs.countP isWashing : ℚ) * (e.time - s.now) := by
        unfold washSum
        exact washSum_shift s.procs e.time s.now
      have hcnt : (s.procs.countP isWashing : ℚ) ≤ (NUM_MACHINES : ℚ) := by
        exact_mod_cast le_trans (washing_le_holds s) hcap
      have hdelta : 0 ≤ e.time - s.now := by linarith
      have hbb := h.bb
      unfold washSum at hbb
      rw [hw2]
      have hmul : (s.procs.countP isWashing : ℚ) * (e.time - s.now)
          ≤ (NUM_MACHINES : ℚ) * (e.time - s.now) :=
        mul_le_mul_of_nonneg_right hcnt hdelta
      linarith
  · exact h

theorem inv7_runFuel (st : Streams) (n : ℕ) (s : SimState)
    (hcap : inUse s ≤ NUM_MACHINES) (h : Inv7 s) : Inv7 (runFuel st n s) := by
  induction n generalizing s with
  | zero => exact h
  | succ n ih => exact ih _ (inUse_step st s hcap) (inv7_step st s hcap h)

theorem inv7_init : Inv7 init := by
  refine ⟨?_, ?_, ?_, ?_, ?_, ?_⟩
  · refine List.Pairwise.cons ?_ (List.Pairwise.cons ?_ (List.Pairwise.cons ?_ .nil))
    · intro e he
      rcases List.mem_cons.mp he with rfl | he
      · exact le_refl _
      · rcases List.mem_cons.mp he with rfl | he
        · exact le_refl _
        · simp at he
    · intro e he
      rcases List.mem_cons.mp he with rfl | he
      · exact le_refl _
      · simp at he
    · intro e he
      simp at he
  · intro e he
    rcases List.mem_cons.mp he with rfl | he
    · exact le_refl _
    rcases List.mem_cons.mp he with rfl | he
    · exact le_refl _
    rcases List.mem_cons.mp he with rfl | he
    · exact le_refl _
    · simp at he
  · norm_num [init, SIM_TIME]
  · intro p a b hp
    match p with
    | 0 => cases hp
    | 1 => cases hp
    | 2 => cases hp
    | (k + 3) => simp [init] at hp
  · exact le_refl _
  · show (0 : ℚ) + washSum init ≤ (NUM_MACHINES : ℚ) * 0
    have : washSum init = 0 := by
      simp [washSum, init, washElapsed]
    rw [this]
    norm_num

/-- C7: for every run, the reported utilization
`busy_time / (SIM_TIME * NUM_MACHINES)` lies in `[0, 1]`: the accumulated
busy time of washes completed within the horizon never exceeds the horizon
times the number of machines. -/
theorem utilization_bounded (st : Streams) (n : ℕ) :
    0 ≤ utilization (run st n) ∧ utilization (run st n) ≤ 1 ∧
    (run st n).busy_time ≤ SIM_TIME * (NUM_MACHINES : ℚ) := by
  have h7 : Inv7 (run st n) := inv7_runFuel st n init (by decide) inv7_init
  have hbz := h7.bz
  have hbb := h7.bb
  have hwn := washSum_nonneg h7.wstart
  have hhz := h7.hz
  have hbusy_le : (run st n).busy_time ≤ SIM_TIME * (NUM_MACHINES : ℚ) := by
    have h1 : (run st n).busy_time ≤ (NUM_MACHINES : ℚ) * (run st n).now := by linarith
    have h2 : (NUM_MACHINES : ℚ) * (run st n).now ≤ (NUM_MACHINES : ℚ) * SIM_TIME := by
      refine mul_le_mul_of_nonneg_left hhz ?_
      norm_num [NUM_MACHINES]
    have h3 : (NUM_MACHINES : ℚ) * SIM_TIME = SIM_TIME * (NUM_MACHINES : ℚ) := mul_comm _ _
    linarith
  refine ⟨?_, ?_, hbusy_le⟩
  · exact div_nonneg hbz (by norm_num [SIM_TIME, NUM_MACHINES])
  · unfold utilization
    rw [div_le_one (by norm_num [SIM_TIME, NUM_MACHINES])]
    exact hbusy_le

/-! ## C6: recorded waits and busy-time deltas are exact -/

theorem mem_map_pid_insertEvt {e : Evt} {l : List Evt} {y : ℕ} :
    y ∈ (insertEvt e l).map Evt.pid ↔ y = e.pid ∨ y ∈ l.map Evt.pid := by
  simp only [List.mem_map]
  constructor
  · rintro ⟨z, hz, rfl⟩
    rcases mem_insertEvt.mp hz with rfl | hz
    · exact Or.inl rfl
    · exact Or.inr ⟨z, hz, rfl⟩
  · rintro (rfl | ⟨z, hz, rfl⟩)
    · exact ⟨e, mem_insertEvt.mpr (Or.inl rfl), rfl⟩
    · exact ⟨z, mem_insertEvt.mpr (Or.inr hz), rfl⟩

theorem nodp_insertEvt {e : Evt} {l : List Evt}
    (hne : e.pid ∉ l.map Evt.pid) (hl : (l.map Evt.pid).Nodup) :
    ((insertEvt e l).map Evt.pid).Nodup := by
  induction l with
  | nil => simp [insertEvt]
  | cons x xs ih =>
    simp only [List.map_cons, List.nodup_cons, List.mem_cons, not_or] at hne hl
    unfold insertEvt
    split
    · simp only [List.map_cons, List.nodup_cons, List.mem_cons, not_or]
      exact ⟨⟨hne.1, hne.2⟩, hl⟩
    · simp only [List.map_cons, List.nodup_cons]
      refine ⟨?_, ih hne.2 hl.2⟩
      intro hx
      rcases mem_map_pid_insertEvt.mp hx with hx | hx
      · exact hne.1 hx.symm
      · exact hl.1 hx

theorem releaseGrant_length (s : SimState) :
    (releaseGrant s).procs.length = s.procs.length := by
  unfold releaseGrant
  split
  · rfl
  split <;>
    first
      | rfl
      | (rw [sched_procs]
         show (s.procs.set _ _).length = _
         rw [List.length_set])

theorem sched_events_pid (s : SimState) (d : ℚ) (q : ℕ) (j : ℕ)
    (hj : j ∉ s.events.map Evt.pid) (hjq : j ≠ q) :
    j ∉ (sched s d q).events.map Evt.pid := by
  unfold sched
  split
  · exact hj
  · intro hmem
    rcases mem_map_pid_insertEvt.mp hmem with h | h
    · exact hjq h
    · exact hj h

theorem releaseGrant_events_pid (s : SimState) (j : ℕ)
    (hj : j ∉ s.events.map Evt.pid) (hjq : j ∉ s.queue) :
    j ∉ (releaseGrant s).events.map Evt.pid := by
  unfold releaseGrant
  split
  · exact hj
  rename_i q rest hq
  have hjq' : j ≠ q := by
    intro hh
    rw [hq] at hjq
    exact hjq (hh ▸ List.mem_cons_self q rest)
  split
  · exact sched_events_pid _ 0 q j hj hjq'
  · exact sched_events_pid _ 0 q j hj hjq'
  · exact sched_events_pid _ 0 q j hj hjq'
  · exact hj

/-- The run-invariant behind C6: every pending event that resumes a washing
car fires exactly at `start + service`; a process has at most one pending
event; events point at real, active processes; and the recorded samples are
exact (`wait = grant - arrival` in `grantsLog`, `delta = service` in
`completions`). -/
structure Inv6 (s : SimState) : Prop where
  wev : ∀ e ∈ s.events, ∀ (a b : ℚ), s.procs[e.pid]? = some (carWashing a b) →
    e.time = a + b
  nodp : (s.events.map Evt.pid).Nodup
  fresh : ∀ e ∈ s.events, e.pid < s.procs.length
  act : ∀ e ∈ s.events, ∃ ps, s.procs[e.pid]? = some ps ∧ isActive ps = true
  gok : ∀ t ∈ s.grantsLog, t.2.2 = t.1 - t.2.1
  cok : ∀ t ∈ s.completions, t.1 = t.2

theorem inv6_congr {s s' : SimState} (h6 : Inv6 s) (hev : s'.events = s.events)
    (hpr : s'.procs = s.procs) (hg : s'.grantsLog = s.grantsLog)
    (hc : s'.completions = s.completions) : Inv6 s' := by
  refine ⟨?_, ?_, ?_, ?_, ?_, ?_⟩
  · intro e he a b hp
    rw [hev] at he
    rw [hpr] at hp
    exact h6.wev e he a b hp
  · rw [hev]; exact h6.nodp
  · intro e he
    rw [hev] at he
    rw [hpr]
    exact h6.fresh e he
  · intro e he
    rw [hev] at he
    rw [hpr]
    exact h6.act e he
  · intro t ht
    rw [hg] at ht
    exact h6.gok t ht
  · intro t ht
    rw [hc] at ht
    exact h6.cok t ht

/-- Updating the state of a process with no pending event preserves the
event-side invariants (sample logs unchanged). -/
theorem inv6_set (s : SimState) (h6 : Inv6 s) (p : ℕ) (b : ProcState)
    (hnotin : p ∉ s.events.map Evt.pid) (s' : SimState)
    (hev : s'.events = s.events) (hpr : s'.procs = s.procs.set p b)
    (hg : s'.grantsLog = s.grantsLog) (hc : s'.completions = s.completions) :
    Inv6 s' := by
  refine ⟨?_, ?_, ?_, ?_, ?_, ?_⟩
  · intro e he a c hp
    rw [hev] at he
    rw [hpr] at hp
    have hne : p ≠ e.pid := by
      intro hh
      exact hnotin (hh ▸ List.mem_map.mpr ⟨e, he, rfl⟩)
    rw [List.getElem?_set_ne hne] at hp
    exact h6.wev e he a c hp
  · rw [hev]; exact h6.nodp
  · intro e he
    rw [hev] at he
    rw [hpr, List.length_set]
    exact h6.fresh e he
  · intro e he
    rw [hev] at he
    obtain ⟨ps, hml, hact⟩ := h6.act e he
    have hne : p ≠ e.pid := by
      intro hh
      exact hnotin (hh ▸ List.mem_map.mpr ⟨e, he, rfl⟩)
    refine ⟨ps, ?_, hact⟩
    rw [hpr, List.getElem?_set_ne hne]
    exact hml
  · intro t ht
    rw [hg] at ht
    exact h6.gok t ht
  · intro t ht
    rw [hc] at ht
    exact h6.cok t ht

theorem inv6_append (s : SimState) (h6 : Inv6 s) (b : ProcState) (s' : SimState)
    (hev : s'.events = s.events) (hpr : s'.procs = s.procs ++ [b])
    (hg : s'.grantsLog = s.grantsLog) (hc : s'.completions = s.completions) :
    Inv6 s' := by
  refine ⟨?_, ?_, ?_, ?_, ?_, ?_⟩
  · intro e he a c hp
    rw [hev] at he
    rw [hpr, List.getElem?_append_left (h6.fresh e he)] at hp
    exact h6.wev e he a c hp
  · rw [hev]; exact h6.nodp
  · intro e he
    rw [hev] at he
    rw [hpr, List.length_append]
    have := h6.fresh e he
    simp only [List.length_cons, List.length_nil]
    omega
  · intro e he
    rw [hev] at he
    obtain ⟨ps, hml, hact⟩ := h6.act e he
    refine ⟨ps, ?_, hact⟩
    rw [hpr, List.getElem?_append_left (h6.fresh e he)]
    exact hml
  · intro t ht
    rw [hg] at ht
    exact h6.gok t ht
  · intro t ht
    rw [hc] at ht
    exact h6.cok t ht

/-- Scheduling an event for an active process with no pending event (whose
wash, if in progress, finishes exactly at `now + d`) preserves the
invariants. -/
theorem inv6_sched (s : SimState) (h6 : Inv6 s) (d : ℚ) (q : ℕ)
    (hqnot : q ∉ s.events.map Evt.pid)
    (hqlt : q < s.procs.length)
    (hqact : ∃ ps, s.procs[q]? = some ps ∧ isActive ps = true)
    (hqwash : ∀ a b, s.procs[q]? = some (carWashing a b) → s.now + d = a + b) :
    Inv6 (sched s d q) := by
  unfold sched
  split
  · exact inv6_congr h6 rfl rfl rfl rfl
  refine ⟨?_, ?_, ?_, ?_, h6.gok, h6.cok⟩
  · intro e he a b hp
    rcases mem_insertEvt.mp he with rfl | he
    · exact hqwash a b hp
    · exact h6.wev e he a b hp
  · exact nodp_insertEvt hqnot h6.nodp
  · intro e he
    rcases mem_insertEvt.mp he with rfl | he
    · exact hqlt
    · exact h6.fresh e he
  · intro e he
    rcases mem_insertEvt.mp he with rfl | he
    · exact hqact
    · exact h6.act e he

theorem inv6_releaseGrant (s : SimState) (h6 : Inv6 s) (hq : QInv s) :
    Inv6 (releaseGrant s) := by
  unfold releaseGrant
  split
  · exact h6
  rename_i q rest hqq
  have hqmem : q ∈ s.queue := by
    rw [hqq]
    exact List.mem_cons_self q rest
  split
  · rename_i a heq
    have hqnot : q ∉ s.events.map Evt.pid := by
      intro hmem
      obtain ⟨e, he, hpe⟩ := List.mem_map.mp hmem
      obtain ⟨ps, hml, hact⟩ := h6.act e he
      rw [hpe, heq] at hml
      cases hml
      simp [isActive] at hact
    have hqlt : q < s.procs.length := (List.getElem?_eq_some_iff.mp heq).1
    refine inv6_sched _ ?_ 0 q ?_ ?_ ?_ ?_
    · refine inv6_set s h6 q (carGranted a) hqnot _ rfl rfl rfl rfl
    · exact hqnot
    · show q < (s.procs.set q (carGranted a)).length
      rw [List.length_set]
      exact hqlt
    · refine ⟨carGranted a, ?_, rfl⟩
      show (s.procs.set q (carGranted a))[q]? = some (carGranted a)
      exact List.getElem?_set_self hqlt
    · intro a' b' hp
      rw [show (setP { s with queue := rest } q (carGranted a)).procs
          = s.procs.set q (carGranted a) from rfl,
        List.getElem?_set_self hqlt] at hp
      cases hp
  · rename_i heq
    have hqnot : q ∉ s.events.map Evt.pid := by
      intro hmem
      obtain ⟨e, he, hpe⟩ := List.mem_map.mp hmem
      obtain ⟨ps, hml, hact⟩ := h6.act e he
      rw [hpe, heq] at hml
      cases hml
      simp [isActive] at hact
    have hqlt : q < s.procs.length := (List.getElem?_eq_some_iff.mp heq).1
    refine inv6_sched _ ?_ 0 q ?_ ?_ ?_ ?_
    · refine inv6_set s h6 q repairG1 hqnot _ rfl rfl rfl rfl
    · exact hqnot
    · show q < (s.procs.set q repairG1).length
      rw [List.length_set]
      exact hqlt
    · refine ⟨repairG1, ?_, rfl⟩
      show (s.procs.set q repairG1)[q]? = some repairG1
      exact List.getElem?_set_self hqlt
    · intro a' b' hp
      rw [show ({ setP { s with queue := rest } q repairG1 with
          repairLog := 0 :: s.repairLog } : SimState).procs
          = s.procs.set q repairG1 from rfl,
        List.getElem?_set_self hqlt] at hp
      cases hp
  · rename_i heq
    have hqnot : q ∉ s.events.map Evt.pid := by
      intro hmem
      obtain ⟨e, he, hpe⟩ := List.mem_map.mp hmem
      obtain ⟨ps, hml, hact⟩ := h6.act e he
      rw [hpe, heq] at hml
      cases hml
      simp [isActive] at hact
    have hqlt : q < s.procs.length := (List.getElem?_eq_some_iff.mp heq).1
    refine inv6_sched _ ?_ 0 q ?_ ?_ ?_ ?_
    · refine inv6_set s h6 q repairG2 hqnot _ rfl rfl rfl rfl
    · exact hqnot
    · show q < (s.procs.set q repairG2).length
      rw [List.length_set]
      exact hqlt
    · refine ⟨repairG2, ?_, rfl⟩
      show (s.procs.set q repairG2)[q]? = some repairG2
      exact List.getElem?_set_self hqlt
    · intro a' b' hp
      rw [show ({ setP { s with queue := rest } q repairG2 with
          repairLog := 2 :: s.repairLog } : SimState).procs
          = s.procs.set q repairG2 from rfl,
        List.getElem?_set_self hqlt] at hp
      cases hp
  · exact inv6_congr h6 rfl rfl rfl rfl

/-- Variant of `inv6_set` for the grant moment: a wait-time entry
`(grant, arrival, grant - arrival)` is pushed onto the log. -/
theorem inv6_set_grant (s : SimState) (h6 : Inv6 s) (p : ℕ) (b : ProcState)
    (hnotin : p ∉ s.events.map Evt.pid) (g a w : ℚ) (hw : w = g - a) (s' : SimState)
    (hev : s'.events = s.events) (hpr : s'.procs = s.procs.set p b)
    (hg : s'.grantsLog = (g, a, w) :: s.grantsLog)
    (hc : s'.completions = s.completions) : Inv6 s' := by
  have base := inv6_set s h6 p b hnotin
    { s' with grantsLog := s.grantsLog } hev hpr rfl hc
  refine ⟨base.wev, base.nodp, base.fresh, base.act, ?_, base.cok⟩
  intro t ht
  rw [hg] at ht
  rcases List.mem_cons.mp ht with rfl | ht
  · exact hw
  · exact h6.gok t ht

/-- Variant of `inv6_set` for a wash completion: a busy-delta entry
`(delta, service)` with `delta = service` is pushed onto the log. -/
theorem inv6_set_complete (s : SimState) (h6 : Inv6 s) (p : ℕ) (b : ProcState)
    (hnotin : p ∉ s.events.map Evt.pid) (d v : ℚ) (hdv : d = v) (s' : SimState)
    (hev : s'.events = s.events) (hpr : s'.procs = s.procs.set p b)
    (hg : s'.grantsLog = s.grantsLog)
    (hc : s'.completions = (d, v) :: s.completions) : Inv6 s' := by
  have base := inv6_set s h6 p b hnotin
    { s' with completions := s.completions } hev hpr hg rfl
  refine ⟨base.wev, base.nodp, base.fresh, base.act, base.gok, ?_⟩
  intro t ht
  rw [hc] at ht
  rcases List.mem_cons.mp ht with rfl | ht
  · exact hdv
  · exact h6.cok t ht

theorem inv6_runProc (st : Streams) (s : SimState) (p : ℕ)
    (h6 : Inv6 s) (hq : QInv s)
    (hnotin : p ∉ s.events.map Evt.pid)
    (hwashnow : ∀ a b, s.procs[p]? = some (carWashing a b) → s.now = a + b) :
    Inv6 (runProc st s p) := by
  rcases hps : s.procs[p]? with _ | ps
  · simp only [runProc, hps]
    exact h6
  have hplt : p < s.procs.length := (List.getElem?_eq_some_iff.mp hps).1
  cases ps
  case setupInit =>
    simp only [runProc, hps]
    split
    · exact inv6_congr h6 rfl rfl rfl rfl
    · refine inv6_sched _ ?_ _ p ?_ ?_ ?_ ?_
      · exact inv6_set s h6 p setupS hnotin _ rfl rfl rfl rfl
      · exact hnotin
      · show p < (s.procs.set p setupS).length
        rw [List.length_set]
        exact hplt
      · refine ⟨setupS, ?_, rfl⟩
        show (s.procs.set p setupS)[p]? = some setupS
        exact List.getElem?_set_self hplt
      · intro a b hp
        have hp' : (s.procs.set p setupS)[p]? = some (carWashing a b) := hp
        rw [List.getElem?_set_self hplt] at hp'
        cases hp'
  case setupS =>
    simp only [runProc, hps]
    split
    · exact inv6_congr h6 rfl rfl rfl rfl
    · refine inv6_sched _ ?_ _ p ?_ ?_ ?_ ?_
      · refine inv6_sched _ ?_ 0 s.procs.length ?_ ?_ ?_ ?_
        · exact inv6_append s h6 (carInit s.now) _ rfl rfl rfl rfl
        · intro hmem
          obtain ⟨e, he, hpe⟩ := List.mem_map.mp hmem
          have := h6.fresh e he
          omega
        · show s.procs.length < (s.procs ++ [carInit s.now]).length
          rw [List.length_append]
          simp
        · refine ⟨carInit s.now, ?_, rfl⟩
          show (s.procs ++ [carInit s.now])[s.procs.length]? = some (carInit s.now)
          exact List.getElem?_concat_length _ _
        · intro a b hp
          have hp' : (s.procs ++ [carInit s.now])[s.procs.length]?
              = some (carWashing a b) := hp
          rw [List.getElem?_concat_length] at hp'
          cases hp'
      · refine sched_events_pid _ 0 s.procs.length p ?_ ?_
        · exact hnotin
        · exact Nat.ne_of_lt hplt
      · show p < (sched _ 0 s.procs.length).procs.length
        rw [sched_procs]
        show p < (s.procs ++ [carInit s.now]).length
        rw [List.length_append]
        simp only [List.length_cons, List.length_nil]
        omega
      · refine ⟨setupS, ?_, rfl⟩
        rw [sched_procs]
        show (s.procs ++ [carInit s.now])[p]? = some setupS
        rw [List.getElem?_append_left hplt]
        exact hps
      · intro a b hp
        rw [sched_procs] at hp
        have hp' : (s.procs ++ [carInit s.now])[p]? = some (carWashing a b) := hp
        rw [List.getElem?_append_left hplt, hps] at hp'
        cases hp'
  case samplerS =>
    simp only [runProc, hps]
    refine inv6_sched _ ?_ 1 p ?_ ?_ ?_ ?_
    · exact inv6_congr h6 rfl rfl rfl rfl
    · exact hnotin
    · exact hplt
    · exact ⟨samplerS, hps, rfl⟩
    · intro a b hp
      have hp' : s.procs[p]? = some (carWashing a b) := hp
      rw [hps] at hp'
      cases hp'
  case repairInit =>
    simp only [runProc, hps]
    split
    · exact inv6_congr h6 rfl rfl rfl rfl
    · refine inv6_sched _ ?_ _ p ?_ ?_ ?_ ?_
      · exact inv6_set s h6 p repairSleep hnotin _ rfl rfl rfl rfl
      · exact hnotin
      · show p < (s.procs.set p repairSleep).length
        rw [List.length_set]
        exact hplt
      · refine ⟨repairSleep, ?_, rfl⟩
        show (s.procs.set p repairSleep)[p]? = some repairSleep
        exact List.getElem?_set_self hplt
      · intro a b hp
        have hp' : (s.procs.set p repairSleep)[p]? = some (carWashing a b) := hp
        rw [List.getElem?_set_self hplt] at hp'
        cases hp'
  case repairSleep =>
    simp only [runProc, hps]
    split
    · refine inv6_sched _ ?_ _ p ?_ ?_ ?_ ?_
      · exact inv6_set s h6 p repairHold1 hnotin _ rfl rfl rfl rfl
      · exact hnotin
      · show p < (s.procs.set p repairHold1).length
        rw [List.length_set]
        exact hplt
      · refine ⟨repairHold1, ?_, rfl⟩
        show (s.procs.set p repairHold1)[p]? = some repairHold1
        exact List.getElem?_set_self hplt
      · intro a b hp
        have hp' : (s.procs.set p repairHold1)[p]? = some (carWashing a b) := hp
        rw [List.getElem?_set_self hplt] at hp'
        cases hp'
    · exact inv6_set s h6 p repairQ1 hnotin _ rfl rfl rfl rfl
  case repairQ1 =>
    simp only [runProc, hps]
    exact h6
  case repairG1 =>
    simp only [runProc, hps]
    refine inv6_sched _ ?_ _ p ?_ ?_ ?_ ?_
    · exact inv6_set s h6 p repairHold1 hnotin _ rfl rfl rfl rfl
    · exact hnotin
    · show p < (s.procs.set p repairHold1).length
      rw [List.length_set]
      exact hplt
    · refine ⟨repairHold1, ?_, rfl⟩
      show (s.procs.set p repairHold1)[p]? = some repairHold1
      exact List.getElem?_set_self hplt
    · intro a b hp
      have hp' : (s.procs.set p repairHold1)[p]? = some (carWashing a b) := hp
      rw [List.getElem?_set_self hplt] at hp'
      cases hp'
  case repairHold1 =>
    simp only [runProc, hps]
    have hnmq : p ∉ s.queue := qinv_notmem hq hps rfl
    have h6X : Inv6 { setP s p repairQ2 with repairLog := 1 :: s.repairLog } :=
      inv6_set s h6 p repairQ2 hnotin _ rfl rfl rfl rfl
    have hqX : QInv { setP s p repairQ2 with repairLog := 1 :: s.repairLog } :=
      qinv_set_notmem hq hnmq repairQ2 _ rfl rfl
    have hS1 := inv6_releaseGrant _ h6X hqX
    have hnotin1 : p ∉ (releaseGrant { setP s p repairQ2 with
        repairLog := 1 :: s.repairLog }).events.map Evt.pid :=
      releaseGrant_events_pid _ p hnotin hnmq
    have hS1len : p < (releaseGrant { setP s p repairQ2 with
        repairLog := 1 :: s.repairLog }).procs.length := by
      rw [releaseGrant_length]
      show p < (s.procs.set p repairQ2).length
      rw [List.length_set]
      exact hplt
    have hXp : ({ setP s p repairQ2 with
        repairLog := 1 :: s.repairLog } : SimState).procs[p]? = some repairQ2 := by
      show (s.procs.set p repairQ2)[p]? = some repairQ2
      exact List.getElem?_set_self hplt
    have hS1p : (releaseGrant { setP s p repairQ2 with
        repairLog := 1 :: s.repairLog }).procs[p]? = some repairQ2 := by
      rw [releaseGrant_get_notmem { setP s p repairQ2 with
        repairLog := 1 :: s.repairLog } p hnmq]
      exact hXp
    split
    · refine inv6_sched _ ?_ _ p ?_ ?_ ?_ ?_
      · exact inv6_set _ hS1 p repairHold2 hnotin1 _ rfl rfl rfl rfl
      · exact hnotin1
      · show p < ((releaseGrant { setP s p repairQ2 with
            repairLog := 1 :: s.repairLog }).procs.set p repairHold2).length
        rw [List.length_set]
        exact hS1len
      · refine ⟨repairHold2, ?_, rfl⟩
        show ((releaseGrant { setP s p repairQ2 with
            repairLog := 1 :: s.repairLog }).procs.set p repairHold2)[p]?
          = some repairHold2
        exact List.getElem?_set_self hS1len
      · intro a b hp
        have hp' : ((releaseGrant { setP s p repairQ2 with
            repairLog := 1 :: s.repairLog }).procs.set p repairHold2)[p]?
            = some (carWashing a b) := hp
        rw [List.getElem?_set_self hS1len] at hp'
        cases hp'
    · exact inv6_congr hS1 rfl rfl rfl rfl
  case repairQ2 =>
    simp only [runProc, hps]
    exact h6
  case repairG2 =>
    simp only [runProc, hps]
    refine inv6_sched _ ?_ _ p ?_ ?_ ?_ ?_
    · exact inv6_set s h6 p repairHold2 hnotin _ rfl rfl rfl rfl
    · exact hnotin
    · show p < (s.procs.set p repairHold2).length
      rw [List.length_set]
      exact hplt
    · refine ⟨repairHold2, ?_, rfl⟩
      show (s.procs.set p repairHold2)[p]? = some repairHold2
      exact List.getElem?_set_self hplt
    · intro a b hp
      have hp' : (s.procs.set p repairHold2)[p]? = some (carWashing a b) := hp
      rw [List.getElem?_set_self hplt] at hp'
      cases hp'
  case repairHold2 =>
    simp only [runProc, hps]
    have hnmq : p ∉ s.queue := qinv_notmem hq hps rfl
    have h6X : Inv6 { setP s p repairSleep with repairLog := 3 :: s.repairLog } :=
      inv6_set s h6 p repairSleep hnotin _ rfl rfl rfl rfl
    have hqX : QInv { setP s p repairSleep with repairLog := 3 :: s.repairLog } :=
      qinv_set_notmem hq hnmq repairSleep _ rfl rfl
    have hS1 := inv6_releaseGrant _ h6X hqX
    have hnotin1 : p ∉ (releaseGrant { setP s p repairSleep with
        repairLog := 3 :: s.repairLog }).events.map Evt.pid :=
      releaseGrant_events_pid _ p hnotin hnmq
    have hS1len : p < (releaseGrant { setP s p repairSleep with
        repairLog := 3 :: s.repairLog }).procs.length := by
      rw [releaseGrant_length]
      show p < (s.procs.set p repairSleep).length
      rw [List.length_set]
      exact hplt
    have hXp : ({ setP s p repairSleep with
        repairLog := 3 :: s.repairLog } : SimState).procs[p]? = some repairSleep := by
      show (s.procs.set p repairSleep)[p]? = some repairSleep
      exact List.getElem?_set_self hplt
    have hS1p : (releaseGrant { setP s p repairSleep with
        repairLog := 3 :: s.repairLog }).procs[p]? = some repairSleep := by
      rw [releaseGrant_get_notmem { setP s p repairSleep with
        repairLog := 3 :: s.repairLog } p hnmq]
      exact hXp
    split
    · exact inv6_congr hS1 rfl rfl rfl rfl
    · refine inv6_sched _ ?_ _ p ?_ ?_ ?_ ?_
      · exact inv6_congr hS1 rfl rfl rfl rfl
      · exact hnotin1
      · exact hS1len
      · exact ⟨repairSleep, hS1p, rfl⟩
      · intro a b hp
        have hp' : (releaseGrant { setP s p repairSleep with
            repairLog := 3 :: s.repairLog }).procs[p]? = some (carWashing a b) := hp
        rw [hS1p] at hp'
        cases hp'
  case carInit a =>
    simp only [runProc, hps]
    split
    · simp only [startWash]
      split
      · exact inv6_congr h6 rfl rfl rfl rfl
      · refine inv6_sched _ ?_ _ p ?_ ?_ ?_ ?_
        · exact inv6_set_grant s h6 p (carWashing s.now (st.svc s.svcIdx)) hnotin
            s.now a (s.now - a) rfl _ rfl rfl rfl rfl
        · exact hnotin
        · show p < (s.procs.set p (carWashing s.now (st.svc s.svcIdx))).length
          rw [List.length_set]
          exact hplt
        · refine ⟨carWashing s.now (st.svc s.svcIdx), ?_, rfl⟩
          show (s.procs.set p (carWashing s.now (st.svc s.svcIdx)))[p]?
            = some (carWashing s.now (st.svc s.svcIdx))
          exact List.getElem?_set_self hplt
        · intro a' b' hp
          have hp' : (s.procs.set p (carWashing s.now (st.svc s.svcIdx)))[p]?
              = some (carWashing a' b') := hp
          rw [List.getElem?_set_self hplt] at hp'
          have h2 := Option.some_inj.mp hp'
          injection h2 with e1 e2
          rw [← e1, ← e2]
          rfl
    · exact inv6_set s h6 p (carQueued a) hnotin _ rfl rfl rfl rfl
  case carQueued a =>
    simp only [runProc, hps]
    exact h6
  case carGranted a =>
    simp only [runProc, hps]
    simp only [startWash]
    split
    · exact inv6_congr h6 rfl rfl rfl rfl
    · refine inv6_sched _ ?_ _ p ?_ ?_ ?_ ?_
      · exact inv6_set_grant s h6 p (carWashing s.now (st.svc s.svcIdx)) hnotin
          s.now a (s.now - a) rfl _ rfl rfl rfl rfl
      · exact hnotin
      · show p < (s.procs.set p (carWashing s.now (st.svc s.svcIdx))).length
        rw [List.length_set]
        exact hplt
      · refine ⟨carWashing s.now (st.svc s.svcIdx), ?_, rfl⟩
        show (s.procs.set p (carWashing s.now (st.svc s.svcIdx)))[p]?
          = some (carWashing s.now (st.svc s.svcIdx))
        exact List.getElem?_set_self hplt
      · intro a' b' hp
        have hp' : (s.procs.set p (carWashing s.now (st.svc s.svcIdx)))[p]?
            = some (carWashing a' b') := hp
        rw [List.getElem?_set_self hplt] at hp'
        have h2 := Option.some_inj.mp hp'
        injection h2 with e1 e2
        rw [← e1, ← e2]
        rfl
  case carWashing start svc =>
    simp only [runProc, hps]
    have hnmq : p ∉ s.queue := qinv_notmem hq hps rfl
    have hdv : s.now - start = svc := by
      have := hwashnow start svc hps
      linarith
    have h6S1 : Inv6 { setP s p carDone with
        busy_time := s.busy_time + (s.now - start),
        completions := (s.now - start, svc) :: s.completions,
        processed_cars := s.processed_cars + 1 } :=
      inv6_set_complete s h6 p carDone hnotin (s.now - start) svc hdv _ rfl rfl rfl rfl
    have hqS1 : QInv { setP s p carDone with
        busy_time := s.busy_time + (s.now - start),
        completions := (s.now - start, svc) :: s.completions,
        processed_cars := s.processed_cars + 1 } :=
      qinv_set_notmem hq hnmq carDone _ rfl rfl
    exact inv6_releaseGrant _ h6S1 hqS1
  case carDone =>
    simp only [runProc, hps]
    exact h6

theorem inv6_step (st : Streams) (s : SimState) (h6 : Inv6 s) (hq : QInv s) :
    Inv6 (step st s) := by
  unfold step
  split
  · exact h6
  split
  · exact h6
  rename_i hnn e rest hev
  split
  · have hmem : ∀ e' ∈ rest, e' ∈ s.events := fun e' h' => by
      rw [hev]
      exact List.mem_cons_of_mem _ h'
    have hnodp := h6.nodp
    rw [hev, List.map_cons, List.nodup_cons] at hnodp
    refine inv6_runProc st _ e.pid ?_ ?_ ?_ ?_
    · refine ⟨?_, hnodp.2, ?_, ?_, h6.gok, h6.cok⟩
      · intro e' he' a b hp
        exact h6.wev e' (hmem e' he') a b hp
      · intro e' he'
        exact h6.fresh e' (hmem e' he')
      · intro e' he'
        exact h6.act e' (hmem e' he')
    · exact qinv_congr hq rfl rfl
    · exact hnodp.1
    · intro a b hp
      have hp' : s.procs[e.pid]? = some (carWashing a b) := hp
      exact h6.wev e (by rw [hev]; exact List.mem_cons_self _ _) a b hp'
  · exact h6

theorem inv6_runFuel (st : Streams) (n : ℕ) (s : SimState)
    (h : ShapeInv s) (hq : QInv s) (h6 : Inv6 s) : Inv6 (runFuel st n s) := by
  induction n generalizing s with
  | zero => exact h6
  | succ n ih =>
    obtain ⟨h', hq'⟩ := sinv_step st s h hq
    exact ih _ h' hq' (inv6_step st s h6 hq)

theorem inv6_init : Inv6 init := by
  refine ⟨?_, by decide, by decide, ?_, ?_, ?_⟩
  · intro e he a b hp
    simp only [init, List.mem_cons, List.not_mem_nil, or_false] at he
    rcases he with rfl | rfl | rfl <;> simp [init] at hp
  · intro e he
    simp only [init, List.mem_cons, List.not_mem_nil, or_false] at he
    rcases he with rfl | rfl | rfl
    · exact ⟨setupInit, rfl, rfl⟩
    · exact ⟨samplerS, rfl, rfl⟩
    · exact ⟨repairInit, rfl, rfl⟩
  · intro t ht
    simp [init] at ht
  · intro t ht
    simp [init] at ht

/-- C6: in every run, every recorded wait-time sample equals the grant time
minus that car's arrival time, and every busy-time delta accumulated on a wash
completion equals the service duration drawn for that car. -/
theorem wait_and_busy_samples_exact (st : Streams) (n : ℕ) :
    (∀ t ∈ (run st n).grantsLog, t.2.2 = t.1 - t.2.1) ∧
    (∀ t ∈ (run st n).completions, t.1 = t.2) := by
  have h6 : Inv6 (run st n) :=
    inv6_runFuel st n init shape_init ⟨by simp [init], by simp [init]⟩ inv6_init
  exact ⟨h6.gok, h6.cok⟩

attribute [local semireducible] Rat.add Rat.sub Rat.mul in
set_option maxRecDepth 400000 in
theorem wait_and_busy_samples_exact_w :
    (((2 : ℚ), (2 : ℚ), (0 : ℚ)) ∈ (run exS 12).grantsLog ∧ (0 : ℚ) = 2 - 2) ∧
    (((1 : ℚ), (1 : ℚ)) ∈ (run exS 12).completions ∧ (1 : ℚ) = 1) := by
  refine ⟨⟨by decide, ?_⟩, ⟨by decide, ?_⟩⟩
  · exact (wait_and_busy_samples_exact exS 12).1 (2, 2, 0) (by decide)
  · exact (wait_and_busy_samples_exact exS 12).2 (1, 1) (by decide)

/-! ## C10: the empty-sample guard in calculate_metrics -/

/-- C10: if a run recorded no wait-time samples (resp. no queue-length
samples), `calculate_metrics` reports an average wait time (resp. average
queue length) of 0 instead of dividing by zero: the empty-list case is
guarded. -/
theorem metrics_empty_guard (s : SimState) :
    (s.wait_times = [] → avg_wait_time s = 0) ∧
    (s.queue_lengths = [] → avg_queue_length s = 0) := by
  constructor <;> intro h <;> simp [avg_wait_time, avg_queue_length, avgOfQ, avgOfN, h]

/-- Witness for C10 at the initial state, whose sample lists are empty. -/
theorem metrics_empty_guard_w :
    (init.wait_times = [] ∧ init.queue_lengths = []) ∧
    avg_wait_time init = 0 ∧ avg_queue_length init = 0 :=
  ⟨⟨rfl, rfl⟩, (metrics_empty_guard init).1 rfl, (metrics_empty_guard init).2 rfl⟩

/-! ## C5: determinism -/

/-- C5: the simulation is a deterministic function of the random draws: two
runs fed identical draw sequences (as produced by identically seeded
samplers) produce identical `wait_times`, `queue_lengths`, `queue_time`
lists and identical `processed_cars` and `busy_time` totals, step for
step. -/
theorem run_deterministic (st₁ st₂ : Streams)
    (hi : ∀ n, st₁.inter n = st₂.inter n)
    (hs : ∀ n, st₁.svc n = st₂.svc n)
    (hr : ∀ n, st₁.rep n = st₂.rep n) :
    ∀ n, outputs (run st₁ n) = outputs (run st₂ n) := by
  obtain ⟨i₁, s₁, r₁⟩ := st₁
  obtain ⟨i₂, s₂, r₂⟩ := st₂
  have h1 : i₁ = i₂ := funext hi
  have h2 : s₁ = s₂ := funext hs
  have h3 : r₁ = r₂ := funext hr
  subst h1 h2 h3
  intro n
  rfl

/-- Witness for C5: two identically-seeded copies of the example streams
give equal outputs after 12 events. -/
theorem run_deterministic_w : outputs (run exS 12) = outputs (run exS 12) :=
  run_deterministic exS exS (fun _ => rfl) (fun _ => rfl) (fun _ => rfl) 12

/-! ## C4: the wait queue is strictly FIFO -/

/-- C4: with both machines in use a further car request is enqueued at the
tail of the wait queue, not granted (and `in_use` does not change); and on a
release the head of the wait queue — the longest waiting requester — is the
one granted, while every later requester stays queued: if R1 requested
before R2, R1 is granted first. -/
theorem fifo_wait_queue :
    (∀ (st : Streams) (s : SimState) (p : ℕ) (a : ℚ),
      s.procs[p]? = some (carInit a) → NUM_MACHINES ≤ inUse s →
        (runProc st s p).queue = s.queue ++ [p] ∧
        inUse (runProc st s p) = inUse s ∧
        (runProc st s p).procs[p]? = some (carQueued a)) ∧
    (∀ (s : SimState) (r1 r2 : ℕ) (rest : List ℕ) (a1 a2 : ℚ),
      s.queue = r1 :: r2 :: rest → r1 ≠ r2 →
      s.procs[r1]? = some (carQueued a1) → s.procs[r2]? = some (carQueued a2) →
        (releaseGrant s).procs[r1]? = some (carGranted a1) ∧
        (releaseGrant s).procs[r2]? = some (carQueued a2) ∧
        (releaseGrant s).queue = r2 :: rest) := by
  constructor
  · intro st s p a hp hfull
    have hnlt : ¬ inUse s < NUM_MACHINES := not_lt.mpr hfull
    have hplen : p < s.procs.length := (List.getElem?_eq_some_iff.mp hp).1
    have hcnt := countP_set_eq holdsSlot s.procs p (carInit a) (carQueued a) hp
    simp only [holdsSlot] at hcnt
    refine ⟨?_, ?_, ?_⟩
    · simp [runProc, hp, if_neg hnlt, setP]
    · simp only [runProc, hp, if_neg hnlt, setP]
      simpa [inUse] using hcnt
    · simp [runProc, hp, if_neg hnlt, setP, List.getElem?_set_self hplen]
  · intro s r1 r2 rest a1 a2 hq hne h1 h2
    have h1len : r1 < s.procs.length := (List.getElem?_eq_some_iff.mp h1).1
    refine ⟨?_, ?_, ?_⟩
    · simp [releaseGrant, hq, h1, sched, setP, if_neg (lt_irrefl (0 : ℚ)),
        List.getElem?_set_self h1len]
    · simp [releaseGrant, hq, h1, sched, setP, if_neg (lt_irrefl (0 : ℚ)),
        List.getElem?_set_ne hne, h2]
    · simp [releaseGrant, hq, h1, sched, setP, if_neg (lt_irrefl (0 : ℚ))]

/-- Witness for C4 on a concrete saturated state: cars 3 and 4 queued in
that order behind two washes in progress; a fresh car 6 is enqueued behind
them, and a release grants car 3, not car 4. -/
def c4State : SimState :=
  { init with
    now := 10
    procs := [setupS, samplerS, repairSleep, carQueued 1, carQueued 2,
              carWashing 0 30, carWashing 0 40, carInit 10]
    queue := [3, 4] }

/-- Witness for C4: instantiates both halves of `fifo_wait_queue` at
`c4State`. -/
theorem fifo_wait_queue_w :
    ((c4State.procs[7]? = some (carInit 10) ∧ NUM_MACHINES ≤ inUse c4State) ∧
      (runProc exS c4State 7).queue = c4State.queue ++ [7] ∧
      inUse (runProc exS c4State 7) = inUse c4State ∧
      (runProc exS c4State 7).procs[7]? = some (carQueued 10)) ∧
    (c4State.queue = 3 :: 4 :: [] ∧
      (releaseGrant c4State).procs[3]? = some (carGranted 1) ∧
      (releaseGrant c4State).procs[4]? = some (carQueued 2) ∧
      (releaseGrant c4State).queue = 4 :: []) :=
  ⟨⟨⟨by decide, by decide⟩,
    fifo_wait_queue.1 exS c4State 7 10 (by decide) (by decide)⟩,
   ⟨rfl, fifo_wait_queue.2 c4State 3 4 [] 1 2 rfl (by decide) (by decide) (by decide)⟩⟩

/-! ## C2: the repair acquisition is a plain FIFO request, not a
capacity withholding -/

set_option maxRecDepth 400000 in
attribute [local semireducible] Rat.add Rat.sub Rat.mul in
/-- Counterexample to C2 as stated: with the `c2S` streams (cars at times
1, 2, 3, washes of 100 minutes, repair arrival at 40) the repair person's
request enters the same FIFO wait queue as the car requests — after 60
events the wait queue is `[5, 2]`: car 5 first, then the repair person
(process 2) in state `repairQ1`.  And it is *not* granted as soon as an
in-flight wash finishes: after 111 events one wash has finished
(`processed_cars = 1`), yet the freed slot went to queued car 5 (now
`carGranted`, wash pending) while the repair person is still waiting in
the same queue. -/
theorem repair_not_capacity_withholding_cex :
    (run c2S 60).procs[2]? = some repairQ1 ∧
    (run c2S 60).queue = [5, 2] ∧
    (run c2S 111).processed_cars = 1 ∧
    (run c2S 111).procs[2]? = some repairQ1 ∧
    (run c2S 111).queue = [2] ∧
    (run c2S 111).procs[5]? = some (carGranted 3) := by decide

/-- C2, amended: the repair acquisition is an ordinary request on the same
resource as the car washes: when the pool is saturated it is appended to
the same FIFO wait queue as car requests (and `in_use` is unchanged), and a
release while a car is at the head of the queue grants that car — the
repair request stays queued rather than being granted as soon as a wash
finishes. -/
theorem repair_shares_fifo_queue :
    (∀ (st : Streams) (s : SimState),
      s.procs[2]? = some repairSleep → NUM_MACHINES ≤ inUse s →
        (runProc st s 2).queue = s.queue ++ [2] ∧
        (runProc st s 2).procs[2]? = some repairQ1 ∧
        inUse (runProc st s 2) = inUse s) ∧
    (∀ (s : SimState) (c : ℕ) (rest : List ℕ) (a : ℚ),
      s.queue = c :: rest → c ≠ 2 → s.procs[c]? = some (carQueued a) →
        (releaseGrant s).queue = rest ∧
        (releaseGrant s).procs[2]? = s.procs[2]? ∧
        (releaseGrant s).procs[c]? = some (carGranted a)) := by
  constructor
  · intro st s hp hfull
    have hnlt : ¬ inUse s < NUM_MACHINES := not_lt.mpr hfull
    have hplen : (2 : ℕ) < s.procs.length := (List.getElem?_eq_some_iff.mp hp).1
    have hcnt := countP_set_eq holdsSlot s.procs 2 repairSleep repairQ1 hp
    simp only [holdsSlot] at hcnt
    refine ⟨?_, ?_, ?_⟩
    · simp [runProc, hp, if_neg hnlt, setP]
    · simp [runProc, hp, if_neg hnlt, setP, List.getElem?_set_self hplen]
    · simp only [runProc, hp, if_neg hnlt, setP]
      simpa [inUse] using hcnt
  · intro s c rest a hq hne hc
    have hclen : c < s.procs.length := (List.getElem?_eq_some_iff.mp hc).1
    refine ⟨?_, ?_, ?_⟩
    · simp [releaseGrant, hq, hc, sched, setP, if_neg (lt_irrefl (0 : ℚ))]
    · simp [releaseGrant, hq, hc, sched, setP, if_neg (lt_irrefl (0 : ℚ)),
        List.getElem?_set_ne hne]
    · simp [releaseGrant, hq, hc, sched, setP, if_neg (lt_irrefl (0 : ℚ)),
        List.getElem?_set_self hclen]

/-- Witness for the amended C2 at the concrete reachable state after 55
events of the `c2S` run (pool saturated, repair person asleep is long past;
we use a hand-checked saturated state instead). -/
def c2State : SimState :=
  { init with
    now := 40
    procs := [setupS, samplerS, repairSleep, carQueued 3,
              carWashing 1 100, carWashing 2 100]
    queue := [3] }

/-- Witness for the amended C2: at `c2State` the repair request joins the
queue behind car 3, and a release grants car 3 while the repair person's
entry survives. -/
theorem repair_shares_fifo_queue_w :
    ((c2State.procs[2]? = some repairSleep ∧ NUM_MACHINES ≤ inUse c2State) ∧
      (runProc exS c2State 2).queue = c2State.queue ++ [2] ∧
      (runProc exS c2State 2).procs[2]? = some repairQ1 ∧
      inUse (runProc exS c2State 2) = inUse c2State) ∧
    (c2State.queue = 3 :: [] ∧
      (releaseGrant c2State).queue = [] ∧
      (releaseGrant c2State).procs[2]? = c2State.procs[2]? ∧
      (releaseGrant c2State).procs[3]? = some (carGranted 3)) :=
  ⟨⟨⟨by decide, by decide⟩,
    repair_shares_fifo_queue.1 exS c2State (by decide) (by decide)⟩,
   ⟨rfl, repair_shares_fifo_queue.2 c2State 3 [] 3 rfl (by decide) (by decide)⟩⟩

end Carwash
